import Mathlib

/-!
Shallow embedding of the certd node-acme-client issuance orchestrator and
challenge verifier.

Sources embedded:
* `src/unnamed/part_000` — the batch "auto mode" orchestrator: account
  registration, CSR domain extraction, order placement, per-authorization
  challenge selection, staggered concurrent provisioning, propagation wait,
  verification, guaranteed cleanup, finalization (modelled as `autoBatch`).
* `src/src/auto.js` — the inline per-domain orchestrator variant
  (modelled as `autoInline`).
* `src/unnamed/part_001` — the http-01 / dns-01 challenge verifier
  (modelled as `verifyHttpChallenge` / `verifyDnsChallenge`).

Modelling conventions: JavaScript async control flow is serialized task by
task. Each concurrent task's own event order is preserved exactly; tasks
created by `.map` followed by `Promise.all` are laid out in index order, and
`Promise.all` settles with the lowest-index rejection. External collaborators
(the ACME transport client, the CSR parser, the DNS resolver, axios, and the
caller-supplied hooks) are pure `Except`-returning functions supplied as an
environment. Thrown JavaScript errors are values of `JsError`; observable
calls are recorded in a trace of `Event`s.
-/

/-- A thrown JavaScript `Error`, identified by its message. -/
structure JsError where
  message : String
  deriving DecidableEq

/-- An ACME order identifier, e.g. `{ type: 'dns', value: 'a.com' }`. -/
structure Identifier where
  type : String
  value : String
  deriving DecidableEq

/-- One ACME challenge offered inside an authorization. -/
structure Challenge where
  type : String
  token : String
  deriving DecidableEq

/-- An ACME identifier authorization with its candidate challenges. -/
structure Authz where
  identifier : Identifier
  challenges : List Challenge
  deriving DecidableEq

/-- Result of `forge.readCsrDomains`. -/
structure CsrDomains where
  commonName : String
  altNames : List String
  deriving DecidableEq

/-- Payload passed to `client.createAccount`. -/
structure AccountPayload where
  termsOfServiceAgreed : Bool
  contact : Option (List String)
  deriving DecidableEq

/-- The per-domain aggregate built by the orchestrator:
`{ authz, keyAuthorization, domain, challenge }`, plus the `record` field the
batch orchestrator assigns after `challengeCreateFn` returns. A JavaScript
value that may be `undefined` is modelled as `Option String`. -/
structure ChallInfo where
  authz : Authz
  keyAuthorization : String
  domain : String
  challenge : Challenge
  record : Option String
  deriving DecidableEq

/-- Observable calls made during one issuance attempt, in order. The
`challengeCreate` event also carries the hook's own outcome so that the trace
records which provisioning attempts succeeded. -/
inductive Event where
  | createAccount (payload : AccountPayload)
  | createOrder (identifiers : List Identifier)
  | challengeCreate (domain : String) (authz : Authz) (challenge : Challenge)
      (keyAuthorization : String) (result : Except JsError (Option String))
  | verifyChallenge (domain : String)
  | completeChallenge (domain : String)
  | waitForValidStatus (domain : String)
  | challengeRemove (domain : String) (authz : Authz) (challenge : Challenge)
      (keyAuthorization : String) (record : Option String)
  | removeFailed (domain : String) (message : String)
  | sleep (ms : Nat)
  | finalizeOrder
  | getCertificate

/-- JavaScript `Array.prototype.indexOf` on an array of strings: index of the
first occurrence, `-1` when absent. -/
def jsIndexOf (l : List String) (x : String) : Int :=
  match l with
  | [] => -1
  | a :: rest =>
    if a = x then 0
    else
      let r := jsIndexOf rest x
      if r = -1 then -1 else r + 1

/-- Position of a challenge type in the priority list, with types absent from
the list mapped to the list's length, so that they order after every present
type. This is the sort key induced by the source comparator. -/
def priorityKey (priority : List String) (t : String) : Nat :=
  match priority with
  | [] => 0
  | p :: rest => if p = t then 0 else priorityKey rest t + 1

/-- The challenge-selection comparator from the source:
```
(a, b) => {
  const aidx = opts.challengePriority.indexOf(a.type);
  const bidx = opts.challengePriority.indexOf(b.type);
  if (aidx === -1) return 1;
  if (bidx === -1) return -1;
  return aidx - bidx;
}
``` -/
def challengeCmp (priority : List String) (a b : Challenge) : Int :=
  let aidx := jsIndexOf priority a.type
  let bidx := jsIndexOf priority b.type
  if aidx = -1 then 1 else if bidx = -1 then -1 else aidx - bidx

/-- The order in which the comparator lets `a` stand before `b`: the
comparator, called as `cmp(b, a)`, does not demand that `b` move before `a`. -/
def sortKeeps (priority : List String) (a b : Challenge) : Prop :=
  0 ≤ challengeCmp priority b a

instance (prio : List String) : DecidableRel (sortKeeps prio) :=
  fun _ _ => Int.decLe _ _

/-- Model of `authz.challenges.sort(cmp)` under Node's V8 engine. For arrays
below the TimSort merge threshold (64 elements; ACME authorizations carry at
most a handful of challenges) V8 sorts by run detection plus stable binary
insertion, which coincides with the unique stable sort induced by the sign of
the comparator, because `cmp a b < 0` holds exactly when
`priorityKey a.type < priorityKey b.type` (`challengeCmp_lt_iff` below). The
stable sort is realised here by `List.insertionSort`. -/
def jsSortChallenges (priority : List String) (cs : List Challenge) : List Challenge :=
  cs.insertionSort (sortKeeps priority)

/-- The challenge the orchestrator selects: `sort(cmp).slice(0, 1)[0]`,
`none` standing for JavaScript `undefined` on an empty array. -/
def jsSelectChallenge (priority : List String) (cs : List Challenge) : Option Challenge :=
  (jsSortChallenges priority cs).head?

/-- The selection rule as the specification words it: the challenge whose
type has the lowest index in the priority list, the first one in original
order on ties, and, when no type appears in the list, the first challenge in
original order. -/
def specSelectChallenge (priority : List String) : List Challenge → Option Challenge
  | [] => none
  | c :: rest =>
    match specSelectChallenge priority rest with
    | none => some c
    | some d =>
      if priorityKey priority c.type ≤ priorityKey priority d.type then some c else some d

/-- Whitespace as matched by the JavaScript regular-expression class `\s`. -/
def jsIsWhitespace (c : Char) : Bool :=
  let n := c.toNat
  n = 9 || n = 10 || n = 11 || n = 12 || n = 13 || n = 32 || n = 160 || n = 5760 ||
    (8192 ≤ n && n ≤ 8202) || n = 8232 || n = 8233 || n = 8239 || n = 8287 ||
    n = 12288 || n = 65279

/-- JavaScript `s.replace(/\s+$/, '')`: remove the trailing run of
whitespace characters. -/
def rstripJs (s : String) : String :=
  String.mk ((s.data.reverse.dropWhile jsIsWhitespace).reverse)

/-- JavaScript `new Error(e)` applied to an existing `Error` value: the new
message is the string conversion `"Error: " + e.message` of the old error. -/
def jsNewErrorFrom (e : JsError) : JsError :=
  ⟨"Error: " ++ e.message⟩

/-- Evaluate `x || d` for a possibly-absent numeric configuration value:
`undefined` and `0` are falsy. -/
def jsOrNum (x : Option Nat) (d : Nat) : Nat :=
  match x with
  | none => d
  | some v => if v = 0 then d else v

/-- The `axios.defaults.acmeSettings` configuration read by the http-01
verifier. -/
structure AcmeSettings where
  httpChallengePort : Option Nat
  deriving DecidableEq

/-- An axios HTTP response; only the fields the verifier reads. The body is
modelled as a string. -/
structure HttpResponse where
  status : Nat
  data : String
  deriving DecidableEq

/-- The URL suffix defaulted by `verifyHttpChallenge`:
`/.well-known/acme-challenge/${challenge.token}`. -/
def acmeChallengeSuffix (challenge : Challenge) : String :=
  "/.well-known/acme-challenge/" ++ challenge.token

/-- The URL the http-01 verifier queries:
`http://${authz.identifier.value}:${httpPort}${suffix}`. -/
def httpChallengeUrl (settings : AcmeSettings) (authz : Authz) (suffixStr : String) : String :=
  "http://" ++ authz.identifier.value ++ ":" ++
    toString (jsOrNum settings.httpChallengePort 80) ++ suffixStr

/-- Embedding of `verifyHttpChallenge` from `src/unnamed/part_001`. The HTTP
GET is supplied as the pure oracle `httpGet`; a network failure is its
`.error` case. `(resp.data || '')` is the identity on a string-valued body. -/
def verifyHttpChallenge (settings : AcmeSettings) (httpGet : String → Except JsError HttpResponse)
    (authz : Authz) (keyAuthorization : String) (suffixStr : String) :
    Except JsError Bool :=
  let challengeUrl := httpChallengeUrl settings authz suffixStr
  match httpGet challengeUrl with
  | .error e => .error e
  | .ok resp =>
    let data := rstripJs resp.data
    if data = "" ∨ data ≠ keyAuthorization then
      .error ⟨"Authorization not found in HTTP response from " ++ authz.identifier.value⟩
    else .ok true

/-- `verifyHttpChallenge` called with the suffix parameter left to its
default. -/
def verifyHttpChallengeDefault (settings : AcmeSettings)
    (httpGet : String → Except JsError HttpResponse) (authz : Authz) (challenge : Challenge)
    (keyAuthorization : String) : Except JsError Bool :=
  verifyHttpChallenge settings httpGet authz keyAuthorization (acmeChallengeSuffix challenge)

/-- Final step of the dns-01 verifier: resolve TXT records at `name`, flatten
the multi-segment answers, and require the key authorization to be a member. -/
def dnsTxtCheck (resolveTxt : String → Except JsError (List (List String)))
    (name : String) (keyAuthorization : String) (domain : String) : Except JsError Bool :=
  match resolveTxt name with
  | .error e => .error e
  | .ok segments =>
    let records := segments.flatten
    if keyAuthorization ∈ records then .ok true
    else .error ⟨"Authorization not found in DNS TXT records for " ++ domain⟩

/-- Embedding of `verifyDnsChallenge` from `src/unnamed/part_001`. The DNS
CNAME and TXT resolutions are supplied as pure oracles; a thrown resolver
error is their `.error` case. -/
def verifyDnsChallenge (resolveCname : String → Except JsError (List String))
    (resolveTxt : String → Except JsError (List (List String)))
    (authz : Authz) (keyAuthorization : String) (prefixStr : String) :
    Except JsError Bool :=
  let challengeRecord := prefixStr ++ authz.identifier.value
  let finalRecord :=
    match resolveCname challengeRecord with
    | .ok [] => challengeRecord
    | .ok (c :: _) => c
    | .error _ => challengeRecord
  dnsTxtCheck resolveTxt finalRecord keyAuthorization authz.identifier.value

/-- `verifyDnsChallenge` called with the prefix parameter left to its default
`_acme-challenge.`. -/
def verifyDnsChallengeDefault (resolveCname : String → Except JsError (List String))
    (resolveTxt : String → Except JsError (List (List String)))
    (authz : Authz) (keyAuthorization : String) : Except JsError Bool :=
  verifyDnsChallenge resolveCname resolveTxt authz keyAuthorization "_acme-challenge."

/-- The injected ACME transport client plus the CSR parser, modelled as pure
`Except`-returning operations. `getAccountUrl` is a synchronous call whose
thrown error signals an unregistered account. -/
structure Env where
  getAccountUrl : Except JsError String
  createAccount : AccountPayload → Except JsError Unit
  readCsrDomains : String → Except JsError CsrDomains
  createOrder : List Identifier → Except JsError String
  getAuthorizations : String → Except JsError (List Authz)
  getChallengeKeyAuthorization : Challenge → Except JsError String
  verifyChallenge : Authz → Challenge → Except JsError Unit
  completeChallenge : Challenge → Except JsError Unit
  waitForValidStatus : Challenge → Except JsError Unit
  finalizeOrder : String → String → Except JsError Unit
  getCertificate : String → Option String → Except JsError String

/-- The orchestrator options after merging with `defaultOpts`. The two hooks
return and consume an opaque record value; a JavaScript value that may be
`undefined` is `Option String`. -/
structure AutoOpts where
  csr : String
  email : Option String
  preferredChain : Option String
  termsOfServiceAgreed : Bool
  skipChallengeVerification : Bool
  challengePriority : List String
  challengeCreateFn : Authz → Challenge → String → Except JsError (Option String)
  challengeRemoveFn : Authz → Challenge → String → Option String → Except JsError Unit

/-- The default challenge priority list from `defaultOpts`. -/
def defaultChallengePriority : List String := ["http-01", "dns-01"]

/-- `exceptOk` projects the fulfilled case. -/
def exceptOk {α : Type} : Except JsError α → Option α
  | .ok a => some a
  | .error _ => none

/-- `exceptErr` projects the rejected case. -/
def exceptErr {α : Type} : Except JsError α → Option JsError
  | .ok _ => none
  | .error e => some e

/-- `Promise.all` over already-settled results: the values in order, or the
lowest-index rejection. -/
def promiseAll {α : Type} : List (Except JsError α) → Except JsError (List α)
  | [] => .ok []
  | .error e :: _ => .error e
  | .ok a :: rest => (promiseAll rest).map (a :: ·)

/-- `Promise.all` over unit-valued task results. -/
def firstErrorUnit (l : List (Except JsError Unit)) : Except JsError Unit :=
  match l.findSome? exceptErr with
  | some e => .error e
  | none => .ok ()

/-- The `hasError` scan of the batch orchestrator:
`challengeRecordInfos.filter((item) => item instanceof Error)`, of which the
element `[0]` is taken. -/
def firstCreateError (l : List (Except JsError ChallInfo)) : Option JsError :=
  l.findSome? exceptErr

/-- The elements of `challengeRecordInfos` kept by the cleanup filter
`(item) => item && !(item instanceof Error)`: the fulfilled, necessarily
truthy, challenge-info objects. -/
def okInfos (l : List (Except JsError ChallInfo)) : List ChallInfo :=
  l.filterMap exceptOk

/-- The account payload built by the orchestrator:
`{ termsOfServiceAgreed }` plus, when `opts.email` is truthy,
`contact: ['mailto:' + email]`. -/
def mkAccountPayload (opts : AutoOpts) : AccountPayload :=
  { termsOfServiceAgreed := opts.termsOfServiceAgreed,
    contact :=
      match opts.email with
      | none => none
      | some e => if e = "" then none else some ["mailto:" ++ e] }

/-- Account registration step, shared verbatim by both orchestrators:
`try { client.getAccountUrl(); } catch (e) { await client.createAccount(accountPayload); }`. -/
def accountStep (env : Env) (payload : AccountPayload) : List Event × Except JsError Unit :=
  match env.getAccountUrl with
  | .ok _ => ([], .ok ())
  | .error _ =>
    match env.createAccount payload with
    | .ok _ => ([.createAccount payload], .ok ())
    | .error e => ([.createAccount payload], .error e)

/-- The shared preamble of both orchestrators: account registration, CSR
domain extraction, order placement and authorization fetch. Returns the order
handle and the authorizations. -/
def orderPhase (env : Env) (opts : AutoOpts) :
    List Event × Except JsError (String × List Authz) :=
  let acc := accountStep env (mkAccountPayload opts)
  match acc.2 with
  | .error e => (acc.1, .error e)
  | .ok _ =>
    match env.readCsrDomains opts.csr with
    | .error e => (acc.1, .error e)
    | .ok csrDomains =>
      let domains := csrDomains.commonName :: csrDomains.altNames
      let orderPayload := domains.map (fun d => { type := "dns", value := d : Identifier })
      match env.createOrder orderPayload with
      | .error e => (acc.1 ++ [.createOrder orderPayload], .error e)
      | .ok order =>
        match env.getAuthorizations order with
        | .error e => (acc.1 ++ [.createOrder orderPayload], .error e)
        | .ok authorizations =>
          (acc.1 ++ [.createOrder orderPayload], .ok (order, authorizations))

/-- Challenge selection and key-authorization computation for one
authorization (the body of `challengePromises` in the batch orchestrator).
`authz.challenges.sort(...)` mutates the authorization's challenge array in
place, so the returned aggregate carries the permuted authorization. -/
def challengeInfoStep (env : Env) (opts : AutoOpts) (authz : Authz) :
    Except JsError ChallInfo :=
  let d := authz.identifier.value
  let sortedChallenges := jsSortChallenges opts.challengePriority authz.challenges
  let sortedAuthz : Authz := { authz with challenges := sortedChallenges }
  match sortedChallenges.head? with
  | none => .error ⟨"Unable to select challenge for " ++ d ++ ", no challenge found"⟩
  | some challenge =>
    match env.getChallengeKeyAuthorization challenge with
    | .error e => .error e
    | .ok keyAuthorization =>
      .ok { authz := sortedAuthz, keyAuthorization := keyAuthorization, domain := d,
            challenge := challenge, record := none }

/-- The batch orchestrator up to and including challenge selection:
`await Promise.all(challengePromises)`. -/
def earlyPhases (env : Env) (opts : AutoOpts) :
    List Event × Except JsError (String × List ChallInfo) :=
  let op := orderPhase env opts
  match op.2 with
  | .error e => (op.1, .error e)
  | .ok (order, authorizations) =>
    (op.1, (promiseAll (authorizations.map (challengeInfoStep env opts))).map
      (fun infos => (order, infos)))

/-- The provisioning event recorded when `challengeCreateFn` is invoked for
one aggregate, together with the hook's own outcome. -/
def createEvOf (opts : AutoOpts) (info : ChallInfo) : Event :=
  .challengeCreate info.domain info.authz info.challenge info.keyAuthorization
    (opts.challengeCreateFn info.authz info.challenge info.keyAuthorization)

/-- The cleanup event recorded when `challengeRemoveFn` is invoked for one
aggregate. -/
def removeEvOf (info : ChallInfo) : Event :=
  .challengeRemove info.domain info.authz info.challenge info.keyAuthorization info.record

/-- One staggered provisioning task of the batch orchestrator:
`await sleep(index * 2000)`, then `challengeCreateFn`; a hook failure is
caught and returned as an error value, not raised. -/
def createTask (opts : AutoOpts) (i : Nat) (info : ChallInfo) :
    List Event × Except JsError ChallInfo :=
  ([.sleep (i * 2000), createEvOf opts info],
   match opts.challengeCreateFn info.authz info.challenge info.keyAuthorization with
   | .ok r => .ok { info with record := r }
   | .error e => .error e)

/-- The provisioning fan-out `challengeInfos.map(async (challengeInfo, index) => ...)`,
with the explicit map index. -/
def provisionTasks (opts : AutoOpts) : Nat → List ChallInfo →
    List (List Event × Except JsError ChallInfo)
  | _, [] => []
  | i, info :: rest => createTask opts i info :: provisionTasks opts (i + 1) rest

/-- Concatenated traces of a task list. -/
def joinTraces {β : Type} (l : List (List Event × β)) : List Event :=
  (l.map Prod.fst).flatten

/-- Results of a task list. -/
def taskResults {β : Type} (l : List (List Event × β)) : List β :=
  l.map Prod.snd

/-- The settled provisioning results of the batch orchestrator
(`challengeRecordInfos`). -/
def provisionResults (opts : AutoOpts) (infos : List ChallInfo) :
    List (Except JsError ChallInfo) :=
  taskResults (provisionTasks opts 0 infos)

/-- Challenge completion for one domain: `completeChallenge` then
`waitForValidStatus`, shared by both orchestrators. `pre` is the task trace
accumulated so far. -/
def completeSteps (env : Env) (info : ChallInfo) (pre : List Event) :
    List Event × Except JsError Unit :=
  match env.completeChallenge info.challenge with
  | .error e => (pre ++ [.completeChallenge info.domain], .error e)
  | .ok _ =>
    match env.waitForValidStatus info.challenge with
    | .error e => (pre ++ [.completeChallenge info.domain, .waitForValidStatus info.domain],
                   .error e)
    | .ok _ => (pre ++ [.completeChallenge info.domain, .waitForValidStatus info.domain],
                .ok ())

/-- One verification task: skip or run `client.verifyChallenge`, then
complete the challenge and wait for valid status. -/
def verifyTask (env : Env) (opts : AutoOpts) (info : ChallInfo) :
    List Event × Except JsError Unit :=
  if opts.skipChallengeVerification = true then
    completeSteps env info []
  else
    match env.verifyChallenge info.authz info.challenge with
    | .error e => ([.verifyChallenge info.domain], .error e)
    | .ok _ => completeSteps env info [.verifyChallenge info.domain]

/-- The `try` block of the batch orchestrator: raise a wrapped first
provisioning error if any was captured, otherwise sleep 30 seconds and run
all verification tasks. -/
def tryPhase (env : Env) (opts : AutoOpts) (recordInfos : List (Except JsError ChallInfo)) :
    List Event × Except JsError Unit :=
  match firstCreateError recordInfos with
  | some e => ([], .error (jsNewErrorFrom e))
  | none =>
    let vs := (okInfos recordInfos).map (verifyTask env opts)
    (Event.sleep 30000 :: joinTraces vs, firstErrorUnit (taskResults vs))

/-- Trace of the logging performed when a suppressed `challengeRemoveFn`
error is caught: the `catch` block only logs. -/
def removeLogTail (res : Except JsError Unit) (d : String) : List Event :=
  match res with
  | .ok _ => []
  | .error e => [.removeFailed d e.message]

/-- The `finally` block of the batch orchestrator: for every fulfilled
record, after a staggered delay, invoke `challengeRemoveFn` and suppress its
error (logging it). Produces only a trace; no error escapes. -/
def cleanupTasks (opts : AutoOpts) : Nat → List ChallInfo → List Event
  | _, [] => []
  | i, info :: rest =>
    (Event.sleep (i * 2000) :: removeEvOf info ::
      removeLogTail
        (opts.challengeRemoveFn info.authz info.challenge info.keyAuthorization info.record)
        info.domain)
    ++ cleanupTasks opts (i + 1) rest

/-- The whole cleanup phase over the settled provisioning results. -/
def cleanupPhase (opts : AutoOpts) (recordInfos : List (Except JsError ChallInfo)) :
    List Event :=
  cleanupTasks opts 0 (okInfos recordInfos)

/-- The batch orchestrator from provisioning to certificate download:
provisioning fan-out, then `try { hasError check; sleep; verify } finally { cleanup }`,
then finalization. -/
def mainPhase (env : Env) (opts : AutoOpts) (order : String) (infos : List ChallInfo) :
    List Event × Except JsError String :=
  let tasks := provisionTasks opts 0 infos
  let recordInfos := taskResults tasks
  let tp := tryPhase env opts recordInfos
  let baseTrace := joinTraces tasks ++ tp.1 ++ cleanupPhase opts recordInfos
  match tp.2 with
  | .error e => (baseTrace, .error e)
  | .ok _ =>
    match env.finalizeOrder order opts.csr with
    | .error e => (baseTrace ++ [.finalizeOrder], .error e)
    | .ok _ =>
      match env.getCertificate order opts.preferredChain with
      | .error e => (baseTrace ++ [.finalizeOrder, .getCertificate], .error e)
      | .ok cert => (baseTrace ++ [.finalizeOrder, .getCertificate], .ok cert)

/-- Embedding of the batch orchestrator `module.exports` of
`src/unnamed/part_000`. -/
def autoBatch (env : Env) (opts : AutoOpts) : List Event × Except JsError String :=
  let ep := earlyPhases env opts
  match ep.2 with
  | .error e => (ep.1, .error e)
  | .ok (order, infos) =>
    let m := mainPhase env opts order infos
    (ep.1 ++ m.1, m.2)

/-- The `try { create; verify; complete; wait } finally { remove (errors
suppressed) }` body of one inline task, entered after challenge selection and
key-authorization computation. When `challengeCreateFn` threw, `recordItem`
is still `undefined` in the `finally` block, and `challengeRemoveFn` is
nevertheless invoked. -/
def inlineTryFinally (env : Env) (opts : AutoOpts) (sortedAuthz : Authz)
    (challenge : Challenge) (keyAuthorization : String) (d : String) :
    List Event × Except JsError Unit :=
  let createRes := opts.challengeCreateFn sortedAuthz challenge keyAuthorization
  let createEv : Event := .challengeCreate d sortedAuthz challenge keyAuthorization createRes
  let tryOut : List Event × Option String × Except JsError Unit :=
    match createRes with
    | .error e => ([createEv], none, .error e)
    | .ok r =>
      let info : ChallInfo := { authz := sortedAuthz, keyAuthorization := keyAuthorization,
                                domain := d, challenge := challenge, record := r }
      let v := verifyTask env opts info
      (createEv :: v.1, r, v.2)
  let recordItem := tryOut.2.1
  let removeTrace : List Event :=
    Event.challengeRemove d sortedAuthz challenge keyAuthorization recordItem ::
      removeLogTail (opts.challengeRemoveFn sortedAuthz challenge keyAuthorization recordItem) d
  (tryOut.1 ++ removeTrace, tryOut.2.2)

/-- One per-domain task of the inline orchestrator `src/src/auto.js`:
selection, key authorization, then the try/finally body. -/
def inlineTask (env : Env) (opts : AutoOpts) (authz : Authz) :
    List Event × Except JsError Unit :=
  let d := authz.identifier.value
  let sortedChallenges := jsSortChallenges opts.challengePriority authz.challenges
  let sortedAuthz : Authz := { authz with challenges := sortedChallenges }
  match sortedChallenges.head? with
  | none => ([], .error ⟨"Unable to select challenge for " ++ d ++ ", no challenge found"⟩)
  | some challenge =>
    match env.getChallengeKeyAuthorization challenge with
    | .error e => ([], .error e)
    | .ok keyAuthorization => inlineTryFinally env opts sortedAuthz challenge keyAuthorization d

/-- The inline orchestrator from its per-domain fan-out to certificate
download: all inline tasks, `Promise.all`, then finalization. -/
def autoInlineMain (env : Env) (opts : AutoOpts) (order : String) (authzs : List Authz) :
    List Event × Except JsError String :=
  let tasks := authzs.map (inlineTask env opts)
  let baseTrace := joinTraces tasks
  match firstErrorUnit (taskResults tasks) with
  | .error e => (baseTrace, .error e)
  | .ok _ =>
    match env.finalizeOrder order opts.csr with
    | .error e => (baseTrace ++ [.finalizeOrder], .error e)
    | .ok _ =>
      match env.getCertificate order opts.preferredChain with
      | .error e => (baseTrace ++ [.finalizeOrder, .getCertificate], .error e)
      | .ok cert => (baseTrace ++ [.finalizeOrder, .getCertificate], .ok cert)

/-- Embedding of the inline orchestrator `module.exports` of
`src/src/auto.js`: the shared preamble, then the per-domain tasks. -/
def autoInline (env : Env) (opts : AutoOpts) : List Event × Except JsError String :=
  let op := orderPhase env opts
  match op.2 with
  | .error e => (op.1, .error e)
  | .ok (order, authorizations) =>
    let m := autoInlineMain env opts order authorizations
    (op.1 ++ m.1, m.2)

/-- Recognizer for `challengeRemove` events. -/
def isRemoveEv : Event → Bool
  | .challengeRemove _ _ _ _ _ => true
  | _ => false

/-- Recognizer for `createAccount` events. -/
def isAccountEv : Event → Bool
  | .createAccount _ => true
  | _ => false

/-- Recognizer for `createOrder` events. -/
def isOrderEv : Event → Bool
  | .createOrder _ => true
  | _ => false

/-- Recognizer for `challengeCreate` events. -/
def isCreateEv : Event → Bool
  | .challengeCreate _ _ _ _ _ => true
  | _ => false

/-- Recognizer for verification-phase events (`verifyChallenge`,
`completeChallenge`, `waitForValidStatus`). -/
def isVerifyPhaseEv : Event → Bool
  | .verifyChallenge _ => true
  | .completeChallenge _ => true
  | .waitForValidStatus _ => true
  | _ => false

/-- The `challengeRemove` events of a trace, in order. -/
def removeCalls (t : List Event) : List Event := t.filter isRemoveEv

/-- The `createAccount` events of a trace, in order. -/
def accountCalls (t : List Event) : List Event := t.filter isAccountEv

/-- The `createOrder` events of a trace, in order. -/
def orderCalls (t : List Event) : List Event := t.filter isOrderEv

/-- The `challengeCreate` events of a trace, in order. -/
def createCalls (t : List Event) : List Event := t.filter isCreateEv

/-- The verification-phase events of a trace, in order. -/
def verifyPhaseCalls (t : List Event) : List Event := t.filter isVerifyPhaseEv

/-- For every successful `challengeCreate` event of a trace, the matching
`challengeRemove` event carrying the created record. -/
def successRemovesOf (t : List Event) : List Event :=
  t.filterMap fun ev =>
    match ev with
    | .challengeCreate d a c ka (.ok r) => some (.challengeRemove d a c ka r)
    | _ => none

/-- For every `challengeCreate` event of a trace, successful or not, the
matching `challengeRemove` event; a failed creation contributes an
`undefined` record. -/
def attemptRemovesOf (t : List Event) : List Event :=
  t.filterMap fun ev =>
    match ev with
    | .challengeCreate d a c ka res =>
      some (.challengeRemove d a c ka (match res with | .ok r => r | .error _ => none))
    | _ => none

/-- Challenge order by priority-list position (absent types last). -/
def priorityLe (p : List String) (a b : Challenge) : Prop :=
  priorityKey p a.type ≤ priorityKey p b.type

/-- Concrete http-01 challenge used by witnesses. -/
def httpChall : Challenge := ⟨"http-01", "tokH"⟩

/-- Concrete dns-01 challenge used by witnesses. -/
def dnsChall : Challenge := ⟨"dns-01", "tokD"⟩

/-- Concrete authorization for `a.com`, challenges in server order
dns-01 before http-01. -/
def authzA : Authz := ⟨⟨"dns", "a.com"⟩, [dnsChall, httpChall]⟩

/-- Concrete authorization for `b.com`. -/
def authzB : Authz := ⟨⟨"dns", "b.com"⟩, [httpChall]⟩

/-- A fully-succeeding environment used by witnesses. -/
def envOk : Env :=
  { getAccountUrl := .ok "https://acct"
    createAccount := fun _ => .ok ()
    readCsrDomains := fun _ => .ok ⟨"a.com", ["b.com"]⟩
    createOrder := fun _ => .ok "order1"
    getAuthorizations := fun _ => .ok [authzA, authzB]
    getChallengeKeyAuthorization := fun c => .ok ("ka." ++ c.token)
    verifyChallenge := fun _ _ => .ok ()
    completeChallenge := fun _ => .ok ()
    waitForValidStatus := fun _ => .ok ()
    finalizeOrder := fun _ _ => .ok ()
    getCertificate := fun _ _ => .ok "CERT" }

/-- Baseline options used by witnesses: default priority, succeeding hooks. -/
def optsBase : AutoOpts :=
  { csr := "csr"
    email := some "me@x.com"
    preferredChain := none
    termsOfServiceAgreed := true
    skipChallengeVerification := false
    challengePriority := defaultChallengePriority
    challengeCreateFn := fun _ _ _ => .ok (some "rec")
    challengeRemoveFn := fun _ _ _ _ => .ok () }

/-- Environment with a single authorization for `b.com`. -/
def envSingleB : Env :=
  { envOk with
    readCsrDomains := fun _ => .ok ⟨"b.com", []⟩
    getAuthorizations := fun _ => .ok [authzB] }

/-- Options whose `challengeCreateFn` always throws. -/
def optsCreateFail : AutoOpts :=
  { optsBase with challengeCreateFn := fun _ _ _ => .error ⟨"create boom"⟩ }

/-- Options whose `challengeCreateFn` succeeds for `a.com` and throws for
every other domain. -/
def optsCreateFailB : AutoOpts :=
  { optsBase with
    challengeCreateFn := fun a _ _ =>
      if a.identifier.value = "a.com" then .ok (some "recA") else .error ⟨"boomB"⟩ }

/-- The record value the `finally` block of an inline task hands to
`challengeRemoveFn`: the created record on success, `undefined` when the
creation threw. -/
def recordOf (res : Except JsError (Option String)) : Option String :=
  match res with
  | .ok r => r
  | .error _ => none

/-- Decidable equality of settled promise results, used to evaluate the model
at concrete inputs. -/
instance {e a : Type} [DecidableEq e] [DecidableEq a] : DecidableEq (Except e a) :=
  fun x y =>
    match x, y with
    | .ok u, .ok v =>
      if h : u = v then isTrue (by rw [h]) else isFalse (fun hc => by cases hc; exact h rfl)
    | .error u, .error v =>
      if h : u = v then isTrue (by rw [h]) else isFalse (fun hc => by cases hc; exact h rfl)
    | .ok _, .error _ => isFalse (fun hc => by cases hc)
    | .error _, .ok _ => isFalse (fun hc => by cases hc)

theorem priorityKey_le_length (l : List String) (t : String) : priorityKey l t ≤ l.length := by
  induction l with
  | nil => simp [priorityKey]
  | cons a rest ih =>
    simp only [priorityKey, List.length_cons]
    split <;> omega

theorem jsIndexOf_eq (l : List String) (x : String) :
    jsIndexOf l x = if priorityKey l x = l.length then -1 else (priorityKey l x : Int) := by
  induction l with
  | nil => simp [jsIndexOf, priorityKey]
  | cons a rest ih =>
    by_cases hax : a = x
    · simp [jsIndexOf, priorityKey, hax]
    · have hle := priorityKey_le_length rest x
      by_cases hk : priorityKey rest x = rest.length
      · simp [jsIndexOf, priorityKey, hax, ih, hk]
      · have hne : (priorityKey rest x : Int) ≠ -1 := by omega
        simp only [jsIndexOf, priorityKey, hax, if_false, ih, hk, if_neg, List.length_cons]
        rw [if_neg hne, if_neg (show ¬(priorityKey rest x + 1 = rest.length + 1) from by omega)]
        push_cast
        ring

theorem challengeCmp_lt_iff (p : List String) (a b : Challenge) :
    challengeCmp p a b < 0 ↔ priorityKey p a.type < priorityKey p b.type := by
  have ha := priorityKey_le_length p a.type
  have hb := priorityKey_le_length p b.type
  simp only [challengeCmp, jsIndexOf_eq]
  by_cases h1 : priorityKey p a.type = p.length <;>
    by_cases h2 : priorityKey p b.type = p.length <;>
      simp [h1, h2] <;> omega

theorem sortKeeps_iff (p : List String) (a b : Challenge) :
    sortKeeps p a b ↔ priorityKey p a.type ≤ priorityKey p b.type := by
  rw [sortKeeps, ← Int.not_lt, challengeCmp_lt_iff, Nat.not_lt]

instance (p : List String) : IsTotal Challenge (sortKeeps p) :=
  ⟨fun a b => by rw [sortKeeps_iff, sortKeeps_iff]; exact Nat.le_total _ _⟩

instance (p : List String) : IsTrans Challenge (sortKeeps p) :=
  ⟨fun a b c hab hbc => by
    rw [sortKeeps_iff] at hab hbc ⊢
    exact le_trans hab hbc⟩

theorem head?_orderedInsert {α : Type} (r : α → α → Prop) [DecidableRel r] (c : α)
    (l : List α) :
    (l.orderedInsert r c).head? =
      match l with
      | [] => some c
      | d :: _ => if r c d then some c else some d := by
  cases l with
  | nil => rfl
  | cons d ds =>
    simp only [List.orderedInsert]
    split <;> rfl

theorem jsSelectChallenge_eq_spec (p : List String) (cs : List Challenge) :
    jsSelectChallenge p cs = specSelectChallenge p cs := by
  induction cs with
  | nil => rfl
  | cons c rest ih =>
    rw [jsSelectChallenge, jsSortChallenges, List.insertionSort, head?_orderedInsert]
    cases hrest : (rest.insertionSort (sortKeeps p)) with
    | nil =>
      have hnil : rest = [] := by
        have hperm := List.perm_insertionSort (sortKeeps p) rest
        rw [hrest] at hperm
        exact (hperm.symm.eq_nil)
      subst hnil
      rfl
    | cons d ds =>
      have hd : specSelectChallenge p rest = some d := by
        rw [← ih, jsSelectChallenge, jsSortChallenges, hrest]
        rfl
      rw [specSelectChallenge, hd]
      exact if_congr (sortKeeps_iff p c d) rfl rfl

theorem specSelectChallenge_cons_isSome (p : List String) (c : Challenge)
    (rest : List Challenge) : ∃ x, specSelectChallenge p (c :: rest) = some x := by
  rw [specSelectChallenge]
  cases specSelectChallenge p rest with
  | none => exact ⟨c, rfl⟩
  | some d =>
    by_cases h : priorityKey p c.type ≤ priorityKey p d.type
    · refine ⟨c, ?_⟩
      show (if priorityKey p c.type ≤ priorityKey p d.type then some c else some d) = some c
      rw [if_pos h]
    · refine ⟨d, ?_⟩
      show (if priorityKey p c.type ≤ priorityKey p d.type then some c else some d) = some d
      rw [if_neg h]

theorem specSelectChallenge_eq_none_iff (p : List String) (cs : List Challenge) :
    specSelectChallenge p cs = none ↔ cs = [] := by
  cases cs with
  | nil => simp [specSelectChallenge]
  | cons c rest =>
    obtain ⟨x, hx⟩ := specSelectChallenge_cons_isSome p c rest
    simp [hx]

theorem specSelectChallenge_mem {p : List String} {cs : List Challenge} {c : Challenge}
    (h : specSelectChallenge p cs = some c) : c ∈ cs := by
  induction cs with
  | nil => exact Option.noConfusion h
  | cons a rest ih =>
    rw [specSelectChallenge] at h
    cases hrest : specSelectChallenge p rest with
    | none =>
      rw [hrest] at h
      have h2 : some a = some c := h
      cases h2
      exact List.mem_cons_self _ _
    | some d =>
      rw [hrest] at h
      have h2 : (if priorityKey p a.type ≤ priorityKey p d.type then some a else some d)
          = some c := h
      by_cases hle : priorityKey p a.type ≤ priorityKey p d.type
      · rw [if_pos hle] at h2
        cases h2
        exact List.mem_cons_self _ _
      · rw [if_neg hle] at h2
        cases h2
        exact List.mem_cons_of_mem _ (ih hrest)

theorem priorityKey_eq_length_of_not_mem {l : List String} {t : String} (h : t ∉ l) :
    priorityKey l t = l.length := by
  induction l with
  | nil => rfl
  | cons a rest ih =>
    simp only [List.mem_cons, not_or] at h
    have hat : a ≠ t := fun hh => h.1 hh.symm
    simp [priorityKey, hat, ih h.2]

theorem specSelectChallenge_head_of_absent (p : List String) (cs : List Challenge)
    (h : ∀ c ∈ cs, c.type ∉ p) : specSelectChallenge p cs = cs.head? := by
  cases cs with
  | nil => rfl
  | cons c rest =>
    rw [specSelectChallenge]
    cases hrest : specSelectChallenge p rest with
    | none => rfl
    | some d =>
      have hd : d ∈ rest := specSelectChallenge_mem hrest
      have h1 : priorityKey p c.type = p.length :=
        priorityKey_eq_length_of_not_mem (h c (List.mem_cons_self _ _))
      have h2 : priorityKey p d.type = p.length :=
        priorityKey_eq_length_of_not_mem (h d (List.mem_cons_of_mem _ hd))
      simp [h1, h2]


theorem sorted_jsSortChallenges (p : List String) (cs : List Challenge) :
    List.Sorted (priorityLe p) (jsSortChallenges p cs) :=
  (List.sorted_insertionSort (sortKeeps p) cs).imp fun hab => (sortKeeps_iff p _ _).mp hab

theorem perm_jsSortChallenges (p : List String) (cs : List Challenge) :
    (jsSortChallenges p cs).Perm cs :=
  List.perm_insertionSort _ _

@[simp]
theorem joinTraces_nil {β : Type} : joinTraces ([] : List (List Event × β)) = [] := rfl

@[simp]
theorem joinTraces_cons {β : Type} (a : List Event × β) (l : List (List Event × β)) :
    joinTraces (a :: l) = a.1 ++ joinTraces l := by
  simp [joinTraces]

@[simp]
theorem taskResults_nil {β : Type} : taskResults ([] : List (List Event × β)) = [] := rfl

@[simp]
theorem taskResults_cons {β : Type} (a : List Event × β) (l : List (List Event × β)) :
    taskResults (a :: l) = a.2 :: taskResults l := rfl

theorem provTrace_calls (opts : AutoOpts) (infos : List ChallInfo) : ∀ i : Nat,
    createCalls (joinTraces (provisionTasks opts i infos)) = infos.map (createEvOf opts)
    ∧ removeCalls (joinTraces (provisionTasks opts i infos)) = []
    ∧ accountCalls (joinTraces (provisionTasks opts i infos)) = []
    ∧ orderCalls (joinTraces (provisionTasks opts i infos)) = []
    ∧ verifyPhaseCalls (joinTraces (provisionTasks opts i infos)) = []
    ∧ successRemovesOf (joinTraces (provisionTasks opts i infos))
        = (okInfos (taskResults (provisionTasks opts i infos))).map removeEvOf := by
  induction infos with
  | nil =>
    intro i
    simp [provisionTasks, okInfos, createCalls, removeCalls, accountCalls, orderCalls,
      verifyPhaseCalls, successRemovesOf]
  | cons info rest ih =>
    intro i
    obtain ⟨ih1, ih2, ih3, ih4, ih5, ih6⟩ := ih (i + 1)
    simp only [createCalls, removeCalls, accountCalls, orderCalls, verifyPhaseCalls,
      successRemovesOf, okInfos] at ih1 ih2 ih3 ih4 ih5 ih6 ⊢
    cases hc : opts.challengeCreateFn info.authz info.challenge info.keyAuthorization with
    | ok r =>
      simp [provisionTasks, createTask, createEvOf, hc, List.filter_append,
        List.filterMap_append, isCreateEv, isRemoveEv, isAccountEv, isOrderEv, isVerifyPhaseEv,
        exceptOk, removeEvOf, ih1, ih2, ih3, ih4, ih5, ih6]
    | error e =>
      simp [provisionTasks, createTask, createEvOf, hc, List.filter_append,
        List.filterMap_append, isCreateEv, isRemoveEv, isAccountEv, isOrderEv, isVerifyPhaseEv,
        exceptOk, removeEvOf, ih1, ih2, ih3, ih4, ih5, ih6]

theorem cleanupTasks_calls (opts : AutoOpts) (l : List ChallInfo) : ∀ i : Nat,
    removeCalls (cleanupTasks opts i l) = l.map removeEvOf
    ∧ createCalls (cleanupTasks opts i l) = []
    ∧ accountCalls (cleanupTasks opts i l) = []
    ∧ orderCalls (cleanupTasks opts i l) = []
    ∧ verifyPhaseCalls (cleanupTasks opts i l) = []
    ∧ successRemovesOf (cleanupTasks opts i l) = [] := by
  induction l with
  | nil =>
    intro i
    simp [cleanupTasks, createCalls, removeCalls, accountCalls, orderCalls,
      verifyPhaseCalls, successRemovesOf]
  | cons info rest ih =>
    intro i
    obtain ⟨ih1, ih2, ih3, ih4, ih5, ih6⟩ := ih (i + 1)
    simp only [createCalls, removeCalls, accountCalls, orderCalls, verifyPhaseCalls,
      successRemovesOf] at ih1 ih2 ih3 ih4 ih5 ih6 ⊢
    cases hr : opts.challengeRemoveFn info.authz info.challenge info.keyAuthorization info.record with
    | ok u =>
      simp [cleanupTasks, removeLogTail, hr, List.filter_append, List.filterMap_append,
        isCreateEv, isRemoveEv, isAccountEv, isOrderEv, isVerifyPhaseEv, removeEvOf,
        ih1, ih2, ih3, ih4, ih5, ih6]
    | error e =>
      simp [cleanupTasks, removeLogTail, hr, List.filter_append, List.filterMap_append,
        isCreateEv, isRemoveEv, isAccountEv, isOrderEv, isVerifyPhaseEv, removeEvOf,
        ih1, ih2, ih3, ih4, ih5, ih6]

theorem completeSteps_calls (env : Env) (info : ChallInfo) (pre : List Event) :
    removeCalls (completeSteps env info pre).1 = removeCalls pre
    ∧ createCalls (completeSteps env info pre).1 = createCalls pre
    ∧ accountCalls (completeSteps env info pre).1 = accountCalls pre
    ∧ orderCalls (completeSteps env info pre).1 = orderCalls pre
    ∧ successRemovesOf (completeSteps env info pre).1 = successRemovesOf pre
    ∧ attemptRemovesOf (completeSteps env info pre).1 = attemptRemovesOf pre := by
  simp only [createCalls, removeCalls, accountCalls, orderCalls, successRemovesOf,
    attemptRemovesOf]
  cases h1 : env.completeChallenge info.challenge with
  | error e =>
    simp [completeSteps, h1, List.filter_append, List.filterMap_append,
      isCreateEv, isRemoveEv, isAccountEv, isOrderEv]
  | ok u =>
    cases h2 : env.waitForValidStatus info.challenge with
    | error e =>
      simp [completeSteps, h1, h2, List.filter_append, List.filterMap_append,
        isCreateEv, isRemoveEv, isAccountEv, isOrderEv]
    | ok v =>
      simp [completeSteps, h1, h2, List.filter_append, List.filterMap_append,
        isCreateEv, isRemoveEv, isAccountEv, isOrderEv]

theorem verifyTask_calls (env : Env) (opts : AutoOpts) (info : ChallInfo) :
    removeCalls (verifyTask env opts info).1 = []
    ∧ createCalls (verifyTask env opts info).1 = []
    ∧ accountCalls (verifyTask env opts info).1 = []
    ∧ orderCalls (verifyTask env opts info).1 = []
    ∧ successRemovesOf (verifyTask env opts info).1 = []
    ∧ attemptRemovesOf (verifyTask env opts info).1 = [] := by
  obtain ⟨c1, c2, c3, c4, c5, c6⟩ := completeSteps_calls env info []
  obtain ⟨d1, d2, d3, d4, d5, d6⟩ := completeSteps_calls env info [.verifyChallenge info.domain]
  rw [verifyTask]
  split
  · exact ⟨c1.trans rfl, c2.trans rfl, c3.trans rfl, c4.trans rfl, c5.trans rfl, c6.trans rfl⟩
  · cases hv : env.verifyChallenge info.authz info.challenge with
    | error e => exact ⟨rfl, rfl, rfl, rfl, rfl, rfl⟩
    | ok u =>
      exact ⟨d1.trans rfl, d2.trans rfl, d3.trans rfl, d4.trans rfl, d5.trans rfl, d6.trans rfl⟩

theorem verifyTasks_calls (env : Env) (opts : AutoOpts) (l : List ChallInfo) :
    removeCalls (joinTraces (l.map (verifyTask env opts))) = []
    ∧ createCalls (joinTraces (l.map (verifyTask env opts))) = []
    ∧ accountCalls (joinTraces (l.map (verifyTask env opts))) = []
    ∧ orderCalls (joinTraces (l.map (verifyTask env opts))) = []
    ∧ successRemovesOf (joinTraces (l.map (verifyTask env opts))) = [] := by
  induction l with
  | nil =>
    simp [createCalls, removeCalls, accountCalls, orderCalls, successRemovesOf]
  | cons info rest ih =>
    obtain ⟨ih1, ih2, ih3, ih4, ih5⟩ := ih
    obtain ⟨v1, v2, v3, v4, v5, v6⟩ := verifyTask_calls env opts info
    simp only [List.map_cons, joinTraces_cons, createCalls, removeCalls, accountCalls,
      orderCalls, successRemovesOf, List.filter_append, List.filterMap_append] at *
    simp [v1, v2, v3, v4, v5, ih1, ih2, ih3, ih4, ih5]

theorem tryPhase_calls (env : Env) (opts : AutoOpts) (ris : List (Except JsError ChallInfo)) :
    removeCalls (tryPhase env opts ris).1 = []
    ∧ createCalls (tryPhase env opts ris).1 = []
    ∧ accountCalls (tryPhase env opts ris).1 = []
    ∧ orderCalls (tryPhase env opts ris).1 = []
    ∧ successRemovesOf (tryPhase env opts ris).1 = [] := by
  rw [tryPhase]
  cases hf : firstCreateError ris with
  | some e =>
    simp [createCalls, removeCalls, accountCalls, orderCalls, successRemovesOf]
  | none =>
    obtain ⟨h1, h2, h3, h4, h5⟩ := verifyTasks_calls env opts (okInfos ris)
    simp only [createCalls, removeCalls, accountCalls, orderCalls, successRemovesOf] at h1 h2 h3 h4 h5 ⊢
    simp [isCreateEv, isRemoveEv, isAccountEv, isOrderEv, h1, h2, h3, h4, h5]

theorem accountStep_of_ok {env : Env} {u : String} (h : env.getAccountUrl = .ok u)
    (p : AccountPayload) : accountStep env p = ([], .ok ()) := by
  simp [accountStep, h]

theorem accountStep_trace_shape (env : Env) (p : AccountPayload) :
    (accountStep env p).1 = [] ∨ (accountStep env p).1 = [.createAccount p] := by
  rw [accountStep]
  cases env.getAccountUrl with
  | ok u => exact Or.inl rfl
  | error e => cases env.createAccount p <;> exact Or.inr rfl

theorem orderPhase_trace_shape (env : Env) (opts : AutoOpts) :
    (orderPhase env opts).1 = (accountStep env (mkAccountPayload opts)).1
    ∨ ∃ pay, (orderPhase env opts).1
        = (accountStep env (mkAccountPayload opts)).1 ++ [Event.createOrder pay] := by
  simp only [orderPhase]
  split
  · exact Or.inl rfl
  · split
    · exact Or.inl rfl
    · split
      · exact Or.inr ⟨_, rfl⟩
      · split
        · exact Or.inr ⟨_, rfl⟩
        · exact Or.inr ⟨_, rfl⟩

theorem orderPhase_calls (env : Env) (opts : AutoOpts) :
    removeCalls (orderPhase env opts).1 = []
    ∧ createCalls (orderPhase env opts).1 = []
    ∧ verifyPhaseCalls (orderPhase env opts).1 = []
    ∧ successRemovesOf (orderPhase env opts).1 = []
    ∧ attemptRemovesOf (orderPhase env opts).1 = []
    ∧ accountCalls (orderPhase env opts).1
        = accountCalls (accountStep env (mkAccountPayload opts)).1 := by
  rcases orderPhase_trace_shape env opts with h | ⟨pay, h⟩ <;>
    rcases accountStep_trace_shape env (mkAccountPayload opts) with h2 | h2 <;>
      rw [h] <;>
        simp [h2, removeCalls, createCalls, verifyPhaseCalls, successRemovesOf,
          attemptRemovesOf, accountCalls, isRemoveEv, isCreateEv, isVerifyPhaseEv, isAccountEv,
          List.filter_append, List.filterMap_append]

theorem earlyPhases_trace (env : Env) (opts : AutoOpts) :
    (earlyPhases env opts).1 = (orderPhase env opts).1 := by
  rw [earlyPhases]
  cases h : (orderPhase env opts).2 with
  | error e => rfl
  | ok pr => cases pr; rfl

theorem mainPhase_trace_shape (env : Env) (opts : AutoOpts) (order : String)
    (infos : List ChallInfo) :
    ∃ tail, (mainPhase env opts order infos).1
        = joinTraces (provisionTasks opts 0 infos)
          ++ (tryPhase env opts (provisionResults opts infos)).1
          ++ cleanupPhase opts (provisionResults opts infos)
          ++ tail
      ∧ (tail = [] ∨ tail = [Event.finalizeOrder]
          ∨ tail = [Event.finalizeOrder, Event.getCertificate]) := by
  simp only [mainPhase, provisionResults]
  cases htp : (tryPhase env opts (taskResults (provisionTasks opts 0 infos))).2 with
  | error e => exact ⟨[], by simp, Or.inl rfl⟩
  | ok u =>
    cases hfin : env.finalizeOrder order opts.csr with
    | error e => exact ⟨[Event.finalizeOrder], by simp, Or.inr (Or.inl rfl)⟩
    | ok v =>
      cases hcert : env.getCertificate order opts.preferredChain with
      | error e =>
        exact ⟨[Event.finalizeOrder, Event.getCertificate], by simp, Or.inr (Or.inr rfl)⟩
      | ok cert =>
        exact ⟨[Event.finalizeOrder, Event.getCertificate], by simp, Or.inr (Or.inr rfl)⟩

theorem mainPhase_result (env : Env) (opts : AutoOpts) (order : String)
    (infos : List ChallInfo) :
    (mainPhase env opts order infos).2 =
      match (tryPhase env opts (provisionResults opts infos)).2 with
      | .error e => .error e
      | .ok _ =>
        match env.finalizeOrder order opts.csr with
        | .error e => .error e
        | .ok _ => env.getCertificate order opts.preferredChain := by
  simp only [mainPhase, provisionResults]
  cases htp : (tryPhase env opts (taskResults (provisionTasks opts 0 infos))).2 with
  | error e => rfl
  | ok u =>
    cases hfin : env.finalizeOrder order opts.csr with
    | error e => rfl
    | ok v =>
      cases hcert : env.getCertificate order opts.preferredChain with
      | error e => rfl
      | ok cert => rfl

theorem autoBatch_of_early_error {env : Env} {opts : AutoOpts} {e : JsError}
    (h : (earlyPhases env opts).2 = .error e) :
    autoBatch env opts = ((earlyPhases env opts).1, .error e) := by
  simp only [autoBatch]
  rw [h]

theorem autoBatch_of_early_ok {env : Env} {opts : AutoOpts} {order : String}
    {infos : List ChallInfo} (h : (earlyPhases env opts).2 = .ok (order, infos)) :
    autoBatch env opts
      = ((earlyPhases env opts).1 ++ (mainPhase env opts order infos).1,
         (mainPhase env opts order infos).2) := by
  simp only [autoBatch]
  rw [h]

theorem removeLogTail_calls (res : Except JsError Unit) (d : String) :
    removeCalls (removeLogTail res d) = []
    ∧ createCalls (removeLogTail res d) = []
    ∧ accountCalls (removeLogTail res d) = []
    ∧ orderCalls (removeLogTail res d) = []
    ∧ verifyPhaseCalls (removeLogTail res d) = []
    ∧ successRemovesOf (removeLogTail res d) = []
    ∧ attemptRemovesOf (removeLogTail res d) = [] := by
  cases res with
  | ok u => exact ⟨rfl, rfl, rfl, rfl, rfl, rfl, rfl⟩
  | error e => exact ⟨rfl, rfl, rfl, rfl, rfl, rfl, rfl⟩

theorem inlineTryFinally_calls (env : Env) (opts : AutoOpts) (sa : Authz) (ch : Challenge)
    (ka : String) (d : String) :
    removeCalls (inlineTryFinally env opts sa ch ka d).1
      = attemptRemovesOf (inlineTryFinally env opts sa ch ka d).1
    ∧ accountCalls (inlineTryFinally env opts sa ch ka d).1 = []
    ∧ orderCalls (inlineTryFinally env opts sa ch ka d).1 = [] := by
  simp only [inlineTryFinally]
  cases hc : opts.challengeCreateFn sa ch ka with
  | error e =>
    obtain ⟨r1, r2, r3, r4, r5, r6, r7⟩ :=
      removeLogTail_calls (opts.challengeRemoveFn sa ch ka none) d
    simp only [removeCalls, createCalls, accountCalls, orderCalls, successRemovesOf,
      attemptRemovesOf] at r1 r3 r4 r7 ⊢
    simp [List.filter_append, List.filterMap_append, isRemoveEv, isAccountEv, isOrderEv,
      r1, r3, r4, r7]
  | ok r =>
    obtain ⟨v1, v2, v3, v4, v5, v6⟩ := verifyTask_calls env opts ⟨sa, ka, d, ch, r⟩
    obtain ⟨r1, r2, r3, r4, r5, r6, r7⟩ :=
      removeLogTail_calls (opts.challengeRemoveFn sa ch ka r) d
    simp only [removeCalls, createCalls, accountCalls, orderCalls, successRemovesOf,
      attemptRemovesOf] at v1 v3 v4 v6 r1 r3 r4 r7 ⊢
    simp [List.filter_append, List.filterMap_append, isRemoveEv, isAccountEv, isOrderEv,
      v1, v3, v4, v6, r1, r3, r4, r7]

theorem inlineTask_calls (env : Env) (opts : AutoOpts) (authz : Authz) :
    removeCalls (inlineTask env opts authz).1 = attemptRemovesOf (inlineTask env opts authz).1
    ∧ accountCalls (inlineTask env opts authz).1 = []
    ∧ orderCalls (inlineTask env opts authz).1 = [] := by
  simp only [inlineTask]
  split
  · exact ⟨rfl, rfl, rfl⟩
  · split
    · exact ⟨rfl, rfl, rfl⟩
    · exact inlineTryFinally_calls env opts _ _ _ _

theorem inlineTasks_calls (env : Env) (opts : AutoOpts) (authzs : List Authz) :
    removeCalls (joinTraces (authzs.map (inlineTask env opts)))
      = attemptRemovesOf (joinTraces (authzs.map (inlineTask env opts)))
    ∧ accountCalls (joinTraces (authzs.map (inlineTask env opts))) = []
    ∧ orderCalls (joinTraces (authzs.map (inlineTask env opts))) = [] := by
  induction authzs with
  | nil => exact ⟨rfl, rfl, rfl⟩
  | cons a rest ih =>
    obtain ⟨ih1, ih2, ih3⟩ := ih
    obtain ⟨t1, t2, t3⟩ := inlineTask_calls env opts a
    simp only [removeCalls, createCalls, accountCalls, orderCalls, attemptRemovesOf,
      List.map_cons, joinTraces_cons, List.filter_append, List.filterMap_append] at ih1 ih2 ih3 t1 t2 t3 ⊢
    rw [t1, t2, t3, ih2, ih3]
    simp [ih1]

theorem autoInline_of_order_error {env : Env} {opts : AutoOpts} {e : JsError}
    (h : (orderPhase env opts).2 = .error e) :
    autoInline env opts = ((orderPhase env opts).1, .error e) := by
  simp only [autoInline]
  rw [h]

theorem autoInline_of_order_ok {env : Env} {opts : AutoOpts} {order : String}
    {authzs : List Authz} (h : (orderPhase env opts).2 = .ok (order, authzs)) :
    autoInline env opts
      = ((orderPhase env opts).1 ++ (autoInlineMain env opts order authzs).1,
         (autoInlineMain env opts order authzs).2) := by
  simp only [autoInline]
  rw [h]

theorem autoInlineMain_trace_shape (env : Env) (opts : AutoOpts) (order : String)
    (authzs : List Authz) :
    ∃ tail, (autoInlineMain env opts order authzs).1
        = joinTraces (authzs.map (inlineTask env opts)) ++ tail
      ∧ (tail = [] ∨ tail = [Event.finalizeOrder]
          ∨ tail = [Event.finalizeOrder, Event.getCertificate]) := by
  simp only [autoInlineMain]
  cases hfe : firstErrorUnit (taskResults (authzs.map (inlineTask env opts))) with
  | error e => exact ⟨[], by simp, Or.inl rfl⟩
  | ok u =>
    cases hf : env.finalizeOrder order opts.csr with
    | error e => exact ⟨[Event.finalizeOrder], by simp, Or.inr (Or.inl rfl)⟩
    | ok v =>
      cases hc : env.getCertificate order opts.preferredChain with
      | error e =>
        exact ⟨[Event.finalizeOrder, Event.getCertificate], by simp, Or.inr (Or.inr rfl)⟩
      | ok cert =>
        exact ⟨[Event.finalizeOrder, Event.getCertificate], by simp, Or.inr (Or.inr rfl)⟩

theorem autoInlineMain_result (env : Env) (opts : AutoOpts) (order : String)
    (authzs : List Authz) :
    (autoInlineMain env opts order authzs).2 =
      match firstErrorUnit (taskResults (authzs.map (inlineTask env opts))) with
      | .error e => .error e
      | .ok _ =>
        match env.finalizeOrder order opts.csr with
        | .error e => .error e
        | .ok _ => env.getCertificate order opts.preferredChain := by
  simp only [autoInlineMain]
  cases hfe : firstErrorUnit (taskResults (authzs.map (inlineTask env opts))) with
  | error e => rfl
  | ok u =>
    cases hf : env.finalizeOrder order opts.csr with
    | error e => rfl
    | ok v =>
      cases hc : env.getCertificate order opts.preferredChain with
      | error e => rfl
      | ok cert => rfl

theorem provisionTasks_stagger (opts : AutoOpts) (infos : List ChallInfo) :
    ∀ (i0 i : Nat) (h : i < infos.length),
      ∃ pre post, joinTraces (provisionTasks opts i0 infos)
        = pre ++ [Event.sleep ((i0 + i) * 2000), createEvOf opts (infos.get ⟨i, h⟩)] ++ post := by
  induction infos with
  | nil =>
    intro i0 i h
    exact absurd h (by simp)
  | cons info rest ih =>
    intro i0 i h
    cases i with
    | zero =>
      refine ⟨[], joinTraces (provisionTasks opts (i0 + 1) rest), ?_⟩
      simp [provisionTasks, createTask]
    | succ j =>
      obtain ⟨pre, post, hp⟩ := ih (i0 + 1) j (Nat.lt_of_succ_lt_succ h)
      refine ⟨[Event.sleep (i0 * 2000), createEvOf opts info] ++ pre, post, ?_⟩
      have harith : i0 + (j + 1) = (i0 + 1) + j := by omega
      simp [provisionTasks, createTask, hp, harith]

theorem cleanupTasks_stagger (opts : AutoOpts) (l : List ChallInfo) :
    ∀ (i0 i : Nat) (h : i < l.length),
      ∃ pre post, cleanupTasks opts i0 l
        = pre ++ [Event.sleep ((i0 + i) * 2000), removeEvOf (l.get ⟨i, h⟩)] ++ post := by
  induction l with
  | nil =>
    intro i0 i h
    exact absurd h (by simp)
  | cons info rest ih =>
    intro i0 i h
    cases i with
    | zero =>
      refine ⟨[],
        removeLogTail
          (opts.challengeRemoveFn info.authz info.challenge info.keyAuthorization info.record)
          info.domain ++ cleanupTasks opts (i0 + 1) rest, ?_⟩
      simp [cleanupTasks]
    | succ j =>
      obtain ⟨pre, post, hp⟩ := ih (i0 + 1) j (Nat.lt_of_succ_lt_succ h)
      refine ⟨(Event.sleep (i0 * 2000) :: removeEvOf info ::
        removeLogTail
          (opts.challengeRemoveFn info.authz info.challenge info.keyAuthorization info.record)
          info.domain) ++ pre, post, ?_⟩
      have harith : i0 + (j + 1) = (i0 + 1) + j := by omega
      simp [cleanupTasks, hp, harith]

theorem tail_calls {tail : List Event}
    (h : tail = [] ∨ tail = [Event.finalizeOrder]
        ∨ tail = [Event.finalizeOrder, Event.getCertificate]) :
    removeCalls tail = [] ∧ createCalls tail = [] ∧ accountCalls tail = []
    ∧ orderCalls tail = [] ∧ verifyPhaseCalls tail = [] ∧ successRemovesOf tail = []
    ∧ attemptRemovesOf tail = [] := by
  rcases h with h | h | h <;> subst h <;> exact ⟨rfl, rfl, rfl, rfl, rfl, rfl, rfl⟩

theorem orderPhase_of_account_error {env : Env} {opts : AutoOpts} {e : JsError}
    (h : (accountStep env (mkAccountPayload opts)).2 = .error e) :
    orderPhase env opts = ((accountStep env (mkAccountPayload opts)).1, .error e) := by
  simp only [orderPhase]
  rw [h]

theorem accountStep_of_both_errors {env : Env} {e0 e1 : JsError} {p : AccountPayload}
    (h0 : env.getAccountUrl = .error e0) (h1 : env.createAccount p = .error e1) :
    accountStep env p = ([.createAccount p], .error e1) := by
  simp [accountStep, h0, h1]

theorem accountStep_of_create_ok {env : Env} {e0 : JsError} {u : Unit} {p : AccountPayload}
    (h0 : env.getAccountUrl = .error e0) (h1 : env.createAccount p = .ok u) :
    accountStep env p = ([.createAccount p], .ok ()) := by
  simp [accountStep, h0, h1]

theorem earlyPhases_of_order_error {env : Env} {opts : AutoOpts} {e : JsError}
    (h : (orderPhase env opts).2 = .error e) :
    earlyPhases env opts = ((orderPhase env opts).1, .error e) := by
  simp only [earlyPhases]
  rw [h]

theorem earlyPhases_of_order_ok {env : Env} {opts : AutoOpts} {order : String}
    {authzs : List Authz} (h : (orderPhase env opts).2 = .ok (order, authzs)) :
    earlyPhases env opts
      = ((orderPhase env opts).1,
         (promiseAll (authzs.map (challengeInfoStep env opts))).map (fun infos => (order, infos))) := by
  simp only [earlyPhases]
  rw [h]

theorem autoBatch_trace_decomp {env : Env} {opts : AutoOpts} {order : String}
    {infos : List ChallInfo} (h : (earlyPhases env opts).2 = .ok (order, infos)) :
    ∃ tail, (autoBatch env opts).1
        = (orderPhase env opts).1
          ++ joinTraces (provisionTasks opts 0 infos)
          ++ (tryPhase env opts (provisionResults opts infos)).1
          ++ cleanupTasks opts 0 (okInfos (provisionResults opts infos))
          ++ tail
      ∧ (tail = [] ∨ tail = [Event.finalizeOrder]
          ∨ tail = [Event.finalizeOrder, Event.getCertificate]) := by
  obtain ⟨tail, ht, hcases⟩ := mainPhase_trace_shape env opts order infos
  refine ⟨tail, ?_, hcases⟩
  have h1 : (autoBatch env opts).1
      = (earlyPhases env opts).1 ++ (mainPhase env opts order infos).1 := by
    rw [autoBatch_of_early_ok h]
  rw [h1, earlyPhases_trace, ht]
  rw [cleanupPhase]
  simp [List.append_assoc]

theorem autoBatch_result_of_ok {env : Env} {opts : AutoOpts} {order : String}
    {infos : List ChallInfo} (h : (earlyPhases env opts).2 = .ok (order, infos)) :
    (autoBatch env opts).2 = (mainPhase env opts order infos).2 := by
  rw [autoBatch_of_early_ok h]

theorem tryPhase_of_first_error {env : Env} {opts : AutoOpts}
    {ris : List (Except JsError ChallInfo)} {e : JsError}
    (h : firstCreateError ris = some e) :
    tryPhase env opts ris = ([], .error (jsNewErrorFrom e)) := by
  simp only [tryPhase]
  rw [h]


/-- C3: For every challenge priority list and every authorization, the
selected challenge is the one whose type has the lowest index in the priority
list among the authorization's challenges (formally, selection coincides with
`specSelectChallenge`, the first-minimal rule); if none of the
authorization's challenge types appear in the priority list, the first
challenge in the authorization's original order is selected; and if the
authorization has zero challenges, selection raises an error naming the
domain, in both orchestrators. -/
theorem C3_challenge_selection :
    (∀ (priority : List String) (cs : List Challenge),
      jsSelectChallenge priority cs = specSelectChallenge priority cs)
    ∧ (∀ (priority : List String) (cs : List Challenge),
        (∀ c ∈ cs, c.type ∉ priority) → jsSelectChallenge priority cs = cs.head?)
    ∧ (∀ (env : Env) (opts : AutoOpts) (authz : Authz), authz.challenges = [] →
        challengeInfoStep env opts authz
          = .error ⟨"Unable to select challenge for " ++ authz.identifier.value
              ++ ", no challenge found"⟩
        ∧ inlineTask env opts authz
          = ([], .error ⟨"Unable to select challenge for " ++ authz.identifier.value
              ++ ", no challenge found"⟩)) := by
  refine ⟨jsSelectChallenge_eq_spec, ?_, ?_⟩
  · intro priority cs h
    rw [jsSelectChallenge_eq_spec]
    exact specSelectChallenge_head_of_absent priority cs h
  · intro env opts authz h
    constructor
    · simp [challengeInfoStep, h, jsSortChallenges]
    · simp [inlineTask, h, jsSortChallenges]

/-- C3 witness: on a concrete authorization whose types are absent from the
priority list the first challenge is selected, and on an authorization with
zero challenges selection raises the error naming the domain. -/
theorem C3_challenge_selection_witness :
    jsSelectChallenge ["http-01", "dns-01"] [⟨"tls-alpn-01", "t1"⟩, ⟨"other-01", "t2"⟩]
      = some ⟨"tls-alpn-01", "t1"⟩
    ∧ challengeInfoStep envOk optsBase ⟨⟨"dns", "empty.com"⟩, []⟩
      = .error ⟨"Unable to select challenge for empty.com, no challenge found"⟩ := by
  constructor
  · rw [C3_challenge_selection.2.1 ["http-01", "dns-01"]
      [⟨"tls-alpn-01", "t1"⟩, ⟨"other-01", "t2"⟩] (by decide)]
    rfl
  · exact (C3_challenge_selection.2.2 envOk optsBase ⟨⟨"dns", "empty.com"⟩, []⟩ rfl).1

/-- C10: Challenge selection sorts the authorization's challenge array in
place: the authorization object carried in the per-domain aggregate (the one
later handed to the `challengeCreateFn`/`challengeRemoveFn` hooks) has its
challenges list equal to the comparator sort of the server-supplied list — a
permutation of it, sorted into priority order — rather than the original
order, as the concrete instance (dns-01 before http-01 under the default
priority) shows. -/
theorem C10_sort_in_place :
    (∀ (env : Env) (opts : AutoOpts) (authz : Authz) (info : ChallInfo),
      challengeInfoStep env opts authz = .ok info →
        info.authz.challenges = jsSortChallenges opts.challengePriority authz.challenges
        ∧ info.authz.challenges.Perm authz.challenges
        ∧ List.Sorted (priorityLe opts.challengePriority) info.authz.challenges
        ∧ info.authz.identifier = authz.identifier)
    ∧ jsSortChallenges defaultChallengePriority [dnsChall, httpChall] = [httpChall, dnsChall]
    ∧ [httpChall, dnsChall] ≠ [dnsChall, httpChall] := by
  refine ⟨?_, by decide, by decide⟩
  intro env opts authz info h
  simp only [challengeInfoStep] at h
  split at h
  · exact Except.noConfusion h
  · split at h
    · exact Except.noConfusion h
    · cases h
      exact ⟨rfl, perm_jsSortChallenges _ _, sorted_jsSortChallenges _ _, rfl⟩

/-- C10 witness: on the concrete `a.com` authorization, whose server order is
dns-01 before http-01, the aggregate carries the challenges permuted into
default priority order http-01 before dns-01. -/
theorem C10_sort_in_place_witness :
    challengeInfoStep envOk optsBase authzA
      = .ok { authz := ⟨⟨"dns", "a.com"⟩, [httpChall, dnsChall]⟩,
              keyAuthorization := "ka.tokH", domain := "a.com",
              challenge := httpChall, record := none }
    ∧ (⟨⟨"dns", "a.com"⟩, [httpChall, dnsChall]⟩ : Authz).challenges
        = jsSortChallenges optsBase.challengePriority authzA.challenges := by
  refine ⟨by decide, ?_⟩
  exact (C10_sort_in_place.1 envOk optsBase authzA
    { authz := ⟨⟨"dns", "a.com"⟩, [httpChall, dnsChall]⟩,
      keyAuthorization := "ka.tokH", domain := "a.com",
      challenge := httpChall, record := none } (by decide)).1

theorem dropWhile_append_of_all {p : Char → Bool} {l1 l2 : List Char}
    (h : ∀ c ∈ l1, p c) : (l1 ++ l2).dropWhile p = l2.dropWhile p := by
  induction l1 with
  | nil => rfl
  | cons c t ih =>
    have hc : p c = true := h c (List.mem_cons_self _ _)
    simp only [List.cons_append, List.dropWhile_cons, hc, if_true]
    exact ih fun x hx => h x (List.mem_cons_of_mem _ hx)

theorem rstripJs_append_ws (ka : String) (ws : List Char) (hka : rstripJs ka = ka)
    (hws : ∀ c ∈ ws, jsIsWhitespace c) : rstripJs (ka ++ String.mk ws) = ka := by
  have hdata : (ka ++ String.mk ws).data = ka.data ++ ws := String.data_append ka (String.mk ws)
  rw [rstripJs, hdata, List.reverse_append]
  have hdrop : (ws.reverse ++ ka.data.reverse).dropWhile jsIsWhitespace
      = ka.data.reverse.dropWhile jsIsWhitespace :=
    dropWhile_append_of_all fun c hc => hws c (List.mem_reverse.mp hc)
  rw [hdrop]
  have h2 : (ka.data.reverse.dropWhile jsIsWhitespace).reverse = ka.data :=
    congrArg String.data hka
  rw [h2]

/-- C5 counterexample: for the empty key authorization and a whitespace-only
body, the stripped body equals the key authorization yet http-01 verification
raises, contradicting the claimed if-and-only-if. -/
theorem C5_counterexample :
    rstripJs " " = ""
    ∧ verifyHttpChallengeDefault ⟨none⟩ (fun _ => .ok ⟨200, " "⟩)
        ⟨⟨"dns", "a.com"⟩, []⟩ httpChall ""
      = .error ⟨"Authorization not found in HTTP response from a.com"⟩ := by
  exact ⟨rfl, rfl⟩

/-- C5 (amended): http-01 verification fetches
`http://<domain>:<port>/.well-known/acme-challenge/<token>` (port
configurable, default 80) with an HTTP GET, strips trailing whitespace from
the response body, and succeeds if and only if the stripped body is non-empty
and exactly equals the key authorization; hence for a non-empty key
authorization without trailing whitespace, a body equal to it plus trailing
whitespace is accepted, any body whose stripped form differs raises a
verification failure naming the domain, and a network error propagates. -/
theorem C5_http01_verification :
    (∀ (settings : AcmeSettings) (g1 g2 : String → Except JsError HttpResponse)
        (authz : Authz) (challenge : Challenge) (ka : String),
      g1 (httpChallengeUrl settings authz (acmeChallengeSuffix challenge))
          = g2 (httpChallengeUrl settings authz (acmeChallengeSuffix challenge)) →
        verifyHttpChallengeDefault settings g1 authz challenge ka
          = verifyHttpChallengeDefault settings g2 authz challenge ka)
    ∧ (∀ (authz : Authz) (challenge : Challenge),
        httpChallengeUrl ⟨none⟩ authz (acmeChallengeSuffix challenge)
          = "http://" ++ authz.identifier.value ++ ":" ++ "80"
              ++ "/.well-known/acme-challenge/" ++ challenge.token)
    ∧ (∀ (settings : AcmeSettings) (g : String → Except JsError HttpResponse)
        (authz : Authz) (challenge : Challenge) (ka : String) (e : JsError),
        g (httpChallengeUrl settings authz (acmeChallengeSuffix challenge)) = .error e →
          verifyHttpChallengeDefault settings g authz challenge ka = .error e)
    ∧ (∀ (settings : AcmeSettings) (g : String → Except JsError HttpResponse)
        (authz : Authz) (challenge : Challenge) (ka : String) (resp : HttpResponse),
        g (httpChallengeUrl settings authz (acmeChallengeSuffix challenge)) = .ok resp →
          (verifyHttpChallengeDefault settings g authz challenge ka = .ok true
            ↔ rstripJs resp.data ≠ "" ∧ rstripJs resp.data = ka)
          ∧ (rstripJs resp.data = "" ∨ rstripJs resp.data ≠ ka →
              verifyHttpChallengeDefault settings g authz challenge ka
                = .error ⟨"Authorization not found in HTTP response from "
                    ++ authz.identifier.value⟩))
    ∧ (∀ (settings : AcmeSettings) (g : String → Except JsError HttpResponse)
        (authz : Authz) (challenge : Challenge) (ka : String) (ws : List Char) (st : Nat),
        ka ≠ "" → rstripJs ka = ka → (∀ c ∈ ws, jsIsWhitespace c) →
          g (httpChallengeUrl settings authz (acmeChallengeSuffix challenge))
            = .ok ⟨st, ka ++ String.mk ws⟩ →
          verifyHttpChallengeDefault settings g authz challenge ka = .ok true) := by
  have hmain : ∀ (settings : AcmeSettings) (g : String → Except JsError HttpResponse)
      (authz : Authz) (challenge : Challenge) (ka : String) (resp : HttpResponse),
      g (httpChallengeUrl settings authz (acmeChallengeSuffix challenge)) = .ok resp →
        (verifyHttpChallengeDefault settings g authz challenge ka = .ok true
          ↔ rstripJs resp.data ≠ "" ∧ rstripJs resp.data = ka)
        ∧ (rstripJs resp.data = "" ∨ rstripJs resp.data ≠ ka →
            verifyHttpChallengeDefault settings g authz challenge ka
              = .error ⟨"Authorization not found in HTTP response from "
                  ++ authz.identifier.value⟩) := by
    intro settings g authz challenge ka resp hg
    simp only [verifyHttpChallengeDefault, verifyHttpChallenge, hg]
    by_cases hcond : rstripJs resp.data = "" ∨ rstripJs resp.data ≠ ka
    · rw [if_pos hcond]
      constructor
      · constructor
        · intro hcontra
          exact Except.noConfusion hcontra
        · intro hok
          rcases hcond with hc | hc
          · exact absurd hc hok.1
          · exact absurd hok.2 hc
      · intro _
        rfl
    · rw [if_neg hcond]
      push_neg at hcond
      constructor
      · exact ⟨fun _ => ⟨hcond.1, hcond.2⟩, fun _ => rfl⟩
      · intro hcontra
        rcases hcontra with hc | hc
        · exact absurd hc hcond.1
        · exact absurd hcond.2 hc
  refine ⟨?_, ?_, ?_, hmain, ?_⟩
  · intro settings g1 g2 authz challenge ka hg
    simp only [verifyHttpChallengeDefault, verifyHttpChallenge]
    rw [hg]
  · intro authz challenge
    have h80 : toString (jsOrNum (none : Option Nat) 80) = "80" := rfl
    simp only [httpChallengeUrl, acmeChallengeSuffix, h80, String.append_assoc]
  · intro settings g authz challenge ka e hg
    simp only [verifyHttpChallengeDefault, verifyHttpChallenge]
    rw [hg]
  · intro settings g authz challenge ka ws st hka hstrip hws hg
    have hresp := hmain settings g authz challenge ka ⟨st, ka ++ String.mk ws⟩ hg
    have hr : rstripJs (ka ++ String.mk ws) = ka := rstripJs_append_ws ka ws hstrip hws
    exact hresp.1.mpr (by rw [hr]; exact ⟨hka, rfl⟩)

/-- C5 witness: concrete applications of the amended statement — a body of
the key authorization plus trailing whitespace is accepted, a differing body
raises the failure naming the domain, and a network error propagates. -/
theorem C5_http01_verification_witness :
    verifyHttpChallengeDefault ⟨none⟩ (fun _ => .ok ⟨200, "ka.tokH \n"⟩)
        ⟨⟨"dns", "a.com"⟩, []⟩ httpChall "ka.tokH" = .ok true
    ∧ verifyHttpChallengeDefault ⟨none⟩ (fun _ => .ok ⟨200, "ka.tokX"⟩)
        ⟨⟨"dns", "a.com"⟩, []⟩ httpChall "ka.tokH"
      = .error ⟨"Authorization not found in HTTP response from a.com"⟩
    ∧ verifyHttpChallengeDefault ⟨none⟩ (fun _ => .error ⟨"ECONNREFUSED"⟩)
        ⟨⟨"dns", "a.com"⟩, []⟩ httpChall "ka.tokH" = .error ⟨"ECONNREFUSED"⟩ := by
  refine ⟨?_, ?_, ?_⟩
  · exact C5_http01_verification.2.2.2.2 ⟨none⟩ (fun _ => .ok ⟨200, "ka.tokH \n"⟩)
      ⟨⟨"dns", "a.com"⟩, []⟩ httpChall "ka.tokH" [' ', '\n'] 200
      (by decide) (by decide) (by decide) rfl
  · exact (C5_http01_verification.2.2.2.1 ⟨none⟩ (fun _ => .ok ⟨200, "ka.tokX"⟩)
      ⟨⟨"dns", "a.com"⟩, []⟩ httpChall "ka.tokH" ⟨200, "ka.tokX"⟩ rfl).2 (by decide)
  · exact C5_http01_verification.2.2.1 ⟨none⟩ (fun _ => .error ⟨"ECONNREFUSED"⟩)
      ⟨⟨"dns", "a.com"⟩, []⟩ httpChall "ka.tokH" ⟨"ECONNREFUSED"⟩ rfl

/-- C6: dns-01 verification first resolves `_acme-challenge.<domain>` for a
CNAME; when a CNAME exists the TXT records are resolved at the CNAME target,
otherwise (empty answer or resolver error) at the original name; the
multi-segment TXT answers are flattened and verification succeeds if and only
if the key authorization is a member of the flattened set (membership, not
uniqueness); absence raises a verification failure naming the domain, and a
TXT resolver error propagates. -/
theorem C6_dns01_verification :
    (∀ (rc : String → Except JsError (List String))
        (rt : String → Except JsError (List (List String)))
        (authz : Authz) (ka target : String) (rest : List String),
      rc ("_acme-challenge." ++ authz.identifier.value) = .ok (target :: rest) →
        verifyDnsChallengeDefault rc rt authz ka
          = dnsTxtCheck rt target ka authz.identifier.value)
    ∧ (∀ (rc : String → Except JsError (List String))
        (rt : String → Except JsError (List (List String)))
        (authz : Authz) (ka : String),
      rc ("_acme-challenge." ++ authz.identifier.value) = .ok [] →
        verifyDnsChallengeDefault rc rt authz ka
          = dnsTxtCheck rt ("_acme-challenge." ++ authz.identifier.value) ka
              authz.identifier.value)
    ∧ (∀ (rc : String → Except JsError (List String))
        (rt : String → Except JsError (List (List String)))
        (authz : Authz) (ka : String) (e : JsError),
      rc ("_acme-challenge." ++ authz.identifier.value) = .error e →
        verifyDnsChallengeDefault rc rt authz ka
          = dnsTxtCheck rt ("_acme-challenge." ++ authz.identifier.value) ka
              authz.identifier.value)
    ∧ (∀ (rt : String → Except JsError (List (List String)))
        (name ka d : String) (segments : List (List String)),
      rt name = .ok segments →
        (dnsTxtCheck rt name ka d = .ok true ↔ ka ∈ segments.flatten)
        ∧ (ka ∉ segments.flatten →
            dnsTxtCheck rt name ka d
              = .error ⟨"Authorization not found in DNS TXT records for " ++ d⟩))
    ∧ (∀ (rt : String → Except JsError (List (List String))) (name ka d : String)
        (e : JsError), rt name = .error e → dnsTxtCheck rt name ka d = .error e) := by
  refine ⟨?_, ?_, ?_, ?_, ?_⟩
  · intro rc rt authz ka target rest h
    simp only [verifyDnsChallengeDefault, verifyDnsChallenge, h]
  · intro rc rt authz ka h
    simp only [verifyDnsChallengeDefault, verifyDnsChallenge, h]
  · intro rc rt authz ka e h
    simp only [verifyDnsChallengeDefault, verifyDnsChallenge, h]
  · intro rt name ka d segments h
    simp only [dnsTxtCheck, h]
    by_cases hmem : ka ∈ segments.flatten
    · rw [if_pos hmem]
      exact ⟨⟨fun _ => hmem, fun _ => rfl⟩, fun hc => absurd hmem hc⟩
    · rw [if_neg hmem]
      exact ⟨⟨fun hc => Except.noConfusion hc, fun hc => absurd hc hmem⟩, fun _ => rfl⟩
  · intro rt name ka d e h
    simp only [dnsTxtCheck, h]

/-- C6 witness: with a CNAME at `_acme-challenge.example.com` pointing to
`target.example.net`, the TXT records are read at the target (where the key
authorization sits among several records), even though resolving TXT at the
original name would fail; and a missing record raises the failure naming the
domain. -/
theorem C6_dns01_verification_witness :
    verifyDnsChallengeDefault
        (fun n => if n = "_acme-challenge.example.com"
          then .ok ["target.example.net"] else .error ⟨"ENODATA"⟩)
        (fun n => if n = "target.example.net"
          then .ok [["other"], ["kaX"]] else .error ⟨"ENOTXT"⟩)
        ⟨⟨"dns", "example.com"⟩, []⟩ "kaX" = .ok true
    ∧ (fun n => if n = "target.example.net"
          then (.ok [["other"], ["kaX"]] : Except JsError (List (List String)))
          else .error ⟨"ENOTXT"⟩) "_acme-challenge.example.com" = .error ⟨"ENOTXT"⟩
    ∧ verifyDnsChallengeDefault
        (fun _ => .error ⟨"ENODATA"⟩)
        (fun _ => .ok [["something"]])
        ⟨⟨"dns", "example.com"⟩, []⟩ "kaX"
      = .error ⟨"Authorization not found in DNS TXT records for example.com"⟩ := by
  refine ⟨?_, by decide, ?_⟩
  · have h1 := C6_dns01_verification.1
      (fun n => if n = "_acme-challenge.example.com"
        then .ok ["target.example.net"] else .error ⟨"ENODATA"⟩)
      (fun n => if n = "target.example.net"
        then .ok [["other"], ["kaX"]] else .error ⟨"ENOTXT"⟩)
      ⟨⟨"dns", "example.com"⟩, []⟩ "kaX" "target.example.net" [] (by decide)
    rw [h1]
    exact (C6_dns01_verification.2.2.2.1
      (fun n => if n = "target.example.net"
        then .ok [["other"], ["kaX"]] else .error ⟨"ENOTXT"⟩)
      "target.example.net" "kaX" "example.com" [["other"], ["kaX"]] (by decide)).1.mpr
      (by decide)
  · have h3 := C6_dns01_verification.2.2.1
      (fun _ => .error ⟨"ENODATA"⟩) (fun _ => .ok [["something"]])
      ⟨⟨"dns", "example.com"⟩, []⟩ "kaX" ⟨"ENODATA"⟩ rfl
    rw [h3]
    exact (C6_dns01_verification.2.2.2.1 (fun _ => .ok [["something"]])
      "_acme-challenge.example.com" "kaX" "example.com" [["something"]] rfl).2 (by decide)

theorem removeCalls_append (l1 l2 : List Event) :
    removeCalls (l1 ++ l2) = removeCalls l1 ++ removeCalls l2 :=
  List.filter_append ..

theorem accountCalls_append (l1 l2 : List Event) :
    accountCalls (l1 ++ l2) = accountCalls l1 ++ accountCalls l2 :=
  List.filter_append ..

theorem orderCalls_append (l1 l2 : List Event) :
    orderCalls (l1 ++ l2) = orderCalls l1 ++ orderCalls l2 :=
  List.filter_append ..

theorem createCalls_append (l1 l2 : List Event) :
    createCalls (l1 ++ l2) = createCalls l1 ++ createCalls l2 :=
  List.filter_append ..

theorem verifyPhaseCalls_append (l1 l2 : List Event) :
    verifyPhaseCalls (l1 ++ l2) = verifyPhaseCalls l1 ++ verifyPhaseCalls l2 :=
  List.filter_append ..

theorem successRemovesOf_append (l1 l2 : List Event) :
    successRemovesOf (l1 ++ l2) = successRemovesOf l1 ++ successRemovesOf l2 :=
  List.filterMap_append ..

theorem attemptRemovesOf_append (l1 l2 : List Event) :
    attemptRemovesOf (l1 ++ l2) = attemptRemovesOf l1 ++ attemptRemovesOf l2 :=
  List.filterMap_append ..

/-- C1 (amended): In the batch orchestrator (`src/unnamed/part_000`) the
`challengeRemoveFn` invocations of an issuance attempt are exactly, in order,
one per successful `challengeCreateFn` invocation, with the created record,
and never one for a failed creation; in the inline orchestrator
(`src/src/auto.js`) a `challengeRemoveFn` invocation is made for every
`challengeCreateFn` invocation, successful or failed, the failed ones
receiving the `undefined` record. -/
theorem C1_remove_per_create :
    (∀ (env : Env) (opts : AutoOpts),
      removeCalls (autoBatch env opts).1 = successRemovesOf (autoBatch env opts).1)
    ∧ (∀ (env : Env) (opts : AutoOpts),
      removeCalls (autoInline env opts).1 = attemptRemovesOf (autoInline env opts).1) := by
  constructor
  · intro env opts
    obtain ⟨o1, o2, o3, o4, o5, o6⟩ := orderPhase_calls env opts
    cases hep : (earlyPhases env opts).2 with
    | error e =>
      rw [autoBatch_of_early_error hep]
      show removeCalls (earlyPhases env opts).1 = successRemovesOf (earlyPhases env opts).1
      rw [earlyPhases_trace env opts, o1, o4]
    | ok pr =>
      obtain ⟨order, infos⟩ := pr
      obtain ⟨tail, ht, hcases⟩ := autoBatch_trace_decomp hep
      obtain ⟨p1, p2, p3, p4, p5, p6⟩ := provTrace_calls opts infos 0
      obtain ⟨t1, t2, t3, t4, t5⟩ := tryPhase_calls env opts (provisionResults opts infos)
      obtain ⟨c1, c2, c3, c4, c5, c6⟩ :=
        cleanupTasks_calls opts (okInfos (provisionResults opts infos)) 0
      obtain ⟨l1, l2, l3, l4, l5, l6, l7⟩ := tail_calls hcases
      rw [ht]
      simp only [removeCalls_append, successRemovesOf_append, provisionResults] at *
      rw [o1, o4, p2, p6, t1, t5, c1, c6, l1, l6]
      simp
  · intro env opts
    obtain ⟨o1, o2, o3, o4, o5, o6⟩ := orderPhase_calls env opts
    cases hop : (orderPhase env opts).2 with
    | error e =>
      rw [autoInline_of_order_error hop]
      show removeCalls (orderPhase env opts).1 = attemptRemovesOf (orderPhase env opts).1
      rw [o1, o5]
    | ok pr =>
      obtain ⟨order, authzs⟩ := pr
      rw [autoInline_of_order_ok hop]
      show removeCalls ((orderPhase env opts).1 ++ (autoInlineMain env opts order authzs).1)
        = attemptRemovesOf ((orderPhase env opts).1 ++ (autoInlineMain env opts order authzs).1)
      obtain ⟨tail, ht, hcases⟩ := autoInlineMain_trace_shape env opts order authzs
      obtain ⟨i1, i2, i3⟩ := inlineTasks_calls env opts authzs
      obtain ⟨l1, l2, l3, l4, l5, l6, l7⟩ := tail_calls hcases
      rw [ht]
      simp only [removeCalls_append, attemptRemovesOf_append]
      rw [o1, o5, l1, l7, i1]
      try simp

/-- C1 counterexample: in the inline orchestrator a concrete attempt whose
only domain's `challengeCreateFn` throws still invokes `challengeRemoveFn`
for that domain (with the `undefined` record), although no creation
succeeded — the claim's "never invoked for a domain whose createChallengeRecord
call failed" is false for this program. -/
theorem C1_counterexample :
    removeCalls (autoInline envSingleB optsCreateFail).1
      = [Event.challengeRemove "b.com" ⟨⟨"dns", "b.com"⟩, [httpChall]⟩ httpChall
          "ka.tokH" none]
    ∧ successRemovesOf (autoInline envSingleB optsCreateFail).1 = [] := by
  exact ⟨rfl, rfl⟩

/-- C2: In the batch orchestrator, when some domain's `challengeCreateFn`
failed, every domain's provisioning attempt still ran (one `challengeCreate`
event per aggregate, capturing each hook's own outcome), the attempt aborts
with the error built from the first captured provisioning error, no domain
proceeds to verification (no `verifyChallenge`, `completeChallenge` or
`waitForValidStatus` event), and cleanup still runs exactly for the
successfully-provisioned records. -/
theorem C2_provisioning_failure (env : Env) (opts : AutoOpts) (order : String)
    (infos : List ChallInfo) (e : JsError)
    (hearly : (earlyPhases env opts).2 = .ok (order, infos))
    (herr : firstCreateError (provisionResults opts infos) = some e) :
    createCalls (autoBatch env opts).1 = infos.map (createEvOf opts)
    ∧ (autoBatch env opts).2 = .error (jsNewErrorFrom e)
    ∧ verifyPhaseCalls (autoBatch env opts).1 = []
    ∧ removeCalls (autoBatch env opts).1
        = (okInfos (provisionResults opts infos)).map removeEvOf := by
  obtain ⟨tail, ht, hcases⟩ := autoBatch_trace_decomp hearly
  have htry : tryPhase env opts (provisionResults opts infos) = ([], .error (jsNewErrorFrom e)) :=
    tryPhase_of_first_error herr
  have htry1 : (tryPhase env opts (provisionResults opts infos)).1 = [] := by rw [htry]
  obtain ⟨o1, o2, o3, o4, o5, o6⟩ := orderPhase_calls env opts
  obtain ⟨p1, p2, p3, p4, p5, p6⟩ := provTrace_calls opts infos 0
  obtain ⟨c1, c2, c3, c4, c5, c6⟩ :=
    cleanupTasks_calls opts (okInfos (provisionResults opts infos)) 0
  obtain ⟨l1, l2, l3, l4, l5, l6, l7⟩ := tail_calls hcases
  refine ⟨?_, ?_, ?_, ?_⟩
  · rw [ht]
    simp only [createCalls_append, provisionResults] at *
    rw [o2, p1, htry1, c2, l2]
    simp [createCalls]
  · rw [autoBatch_result_of_ok hearly, mainPhase_result, htry]
  · rw [ht]
    simp only [verifyPhaseCalls_append, provisionResults] at *
    rw [o3, p5, htry1, c5, l5]
    simp [verifyPhaseCalls]
  · rw [ht]
    simp only [removeCalls_append, provisionResults] at *
    rw [o1, p2, htry1, c1, l1]
    simp [removeCalls]

/-- C2 witness: on a concrete two-domain attempt where `a.com` provisions
successfully and `b.com`'s creation throws, the attempt aborts with the
wrapped first captured error, no verification event occurs, both creations
were attempted, and exactly the `a.com` record is cleaned up. -/
theorem C2_provisioning_failure_witness :
    (autoBatch envOk optsCreateFailB).2 = .error ⟨"Error: boomB"⟩
    ∧ verifyPhaseCalls (autoBatch envOk optsCreateFailB).1 = []
    ∧ (createCalls (autoBatch envOk optsCreateFailB).1).length = 2
    ∧ removeCalls (autoBatch envOk optsCreateFailB).1
      = [Event.challengeRemove "a.com" ⟨⟨"dns", "a.com"⟩, [httpChall, dnsChall]⟩ httpChall
          "ka.tokH" (some "recA")] := by
  have h := C2_provisioning_failure envOk optsCreateFailB "order1"
    [{ authz := ⟨⟨"dns", "a.com"⟩, [httpChall, dnsChall]⟩, keyAuthorization := "ka.tokH",
       domain := "a.com", challenge := httpChall, record := none },
     { authz := ⟨⟨"dns", "b.com"⟩, [httpChall]⟩, keyAuthorization := "ka.tokH",
       domain := "b.com", challenge := httpChall, record := none }]
    ⟨"boomB"⟩ rfl rfl
  refine ⟨h.2.1, h.2.2.1, ?_, ?_⟩
  · rw [h.1]
    rfl
  · rw [h.2.2.2]
    rfl

theorem accountStep_trace_of_error {env : Env} {e0 : JsError} (p : AccountPayload)
    (h : env.getAccountUrl = .error e0) :
    (accountStep env p).1 = [.createAccount p] := by
  rw [accountStep, h]
  cases env.createAccount p <;> rfl

theorem autoBatch_accountCalls (env : Env) (opts : AutoOpts) :
    accountCalls (autoBatch env opts).1
      = accountCalls (accountStep env (mkAccountPayload opts)).1 := by
  obtain ⟨o1, o2, o3, o4, o5, o6⟩ := orderPhase_calls env opts
  cases hep : (earlyPhases env opts).2 with
  | error e =>
    rw [autoBatch_of_early_error hep]
    show accountCalls (earlyPhases env opts).1 = _
    rw [earlyPhases_trace env opts, o6]
  | ok pr =>
    obtain ⟨order, infos⟩ := pr
    obtain ⟨tail, ht, hcases⟩ := autoBatch_trace_decomp hep
    obtain ⟨p1, p2, p3, p4, p5, p6⟩ := provTrace_calls opts infos 0
    obtain ⟨t1, t2, t3, t4, t5⟩ := tryPhase_calls env opts (provisionResults opts infos)
    obtain ⟨c1, c2, c3, c4, c5, c6⟩ :=
      cleanupTasks_calls opts (okInfos (provisionResults opts infos)) 0
    obtain ⟨l1, l2, l3, l4, l5, l6, l7⟩ := tail_calls hcases
    rw [ht]
    simp only [accountCalls_append, provisionResults] at *
    rw [o6, p3, t3, c3, l3]
    simp [accountCalls]

theorem autoInline_accountCalls (env : Env) (opts : AutoOpts) :
    accountCalls (autoInline env opts).1
      = accountCalls (accountStep env (mkAccountPayload opts)).1 := by
  obtain ⟨o1, o2, o3, o4, o5, o6⟩ := orderPhase_calls env opts
  cases hop : (orderPhase env opts).2 with
  | error e =>
    rw [autoInline_of_order_error hop]
    show accountCalls (orderPhase env opts).1 = _
    rw [o6]
  | ok pr =>
    obtain ⟨order, authzs⟩ := pr
    rw [autoInline_of_order_ok hop]
    show accountCalls ((orderPhase env opts).1 ++ (autoInlineMain env opts order authzs).1) = _
    obtain ⟨tail, ht, hcases⟩ := autoInlineMain_trace_shape env opts order authzs
    obtain ⟨i1, i2, i3⟩ := inlineTasks_calls env opts authzs
    obtain ⟨l1, l2, l3, l4, l5, l6, l7⟩ := tail_calls hcases
    rw [ht]
    simp only [accountCalls_append]
    rw [o6, i2, l3]
    simp [accountCalls]

theorem autoBatch_orderCalls (env : Env) (opts : AutoOpts) :
    orderCalls (autoBatch env opts).1 = orderCalls (orderPhase env opts).1 := by
  cases hep : (earlyPhases env opts).2 with
  | error e =>
    rw [autoBatch_of_early_error hep]
    show orderCalls (earlyPhases env opts).1 = _
    rw [earlyPhases_trace env opts]
  | ok pr =>
    obtain ⟨order, infos⟩ := pr
    obtain ⟨tail, ht, hcases⟩ := autoBatch_trace_decomp hep
    obtain ⟨p1, p2, p3, p4, p5, p6⟩ := provTrace_calls opts infos 0
    obtain ⟨t1, t2, t3, t4, t5⟩ := tryPhase_calls env opts (provisionResults opts infos)
    obtain ⟨c1, c2, c3, c4, c5, c6⟩ :=
      cleanupTasks_calls opts (okInfos (provisionResults opts infos)) 0
    obtain ⟨l1, l2, l3, l4, l5, l6, l7⟩ := tail_calls hcases
    rw [ht]
    simp only [orderCalls_append, provisionResults] at *
    rw [p4, t4, c4, l4]
    try simp [orderCalls]

theorem autoInline_orderCalls (env : Env) (opts : AutoOpts) :
    orderCalls (autoInline env opts).1 = orderCalls (orderPhase env opts).1 := by
  cases hop : (orderPhase env opts).2 with
  | error e =>
    rw [autoInline_of_order_error hop]
  | ok pr =>
    obtain ⟨order, authzs⟩ := pr
    rw [autoInline_of_order_ok hop]
    show orderCalls ((orderPhase env opts).1 ++ (autoInlineMain env opts order authzs).1) = _
    obtain ⟨tail, ht, hcases⟩ := autoInlineMain_trace_shape env opts order authzs
    obtain ⟨i1, i2, i3⟩ := inlineTasks_calls env opts authzs
    obtain ⟨l1, l2, l3, l4, l5, l6, l7⟩ := tail_calls hcases
    rw [ht]
    simp only [orderCalls_append]
    rw [i3, l4]
    try simp [orderCalls]

/-- C7: If querying the client for an existing account URL succeeds,
`createAccount` is never called; if it throws, `createAccount` is called
exactly once, with the terms-acceptance flag and, when a non-empty email was
supplied, a `mailto:` contact; and if that registration call throws, the
whole attempt aborts as that error, with nothing else having been invoked.
Both orchestrators behave identically. -/
theorem C7_account_registration :
    (∀ (env : Env) (opts : AutoOpts) (u : String), env.getAccountUrl = .ok u →
      accountCalls (autoBatch env opts).1 = [] ∧ accountCalls (autoInline env opts).1 = [])
    ∧ (∀ (env : Env) (opts : AutoOpts) (e0 : JsError), env.getAccountUrl = .error e0 →
      accountCalls (autoBatch env opts).1 = [.createAccount (mkAccountPayload opts)]
      ∧ accountCalls (autoInline env opts).1 = [.createAccount (mkAccountPayload opts)])
    ∧ (∀ (env : Env) (opts : AutoOpts) (e0 e1 : JsError), env.getAccountUrl = .error e0 →
      env.createAccount (mkAccountPayload opts) = .error e1 →
      autoBatch env opts = ([.createAccount (mkAccountPayload opts)], .error e1)
      ∧ autoInline env opts = ([.createAccount (mkAccountPayload opts)], .error e1))
    ∧ (∀ opts : AutoOpts,
      (mkAccountPayload opts).termsOfServiceAgreed = opts.termsOfServiceAgreed
      ∧ (opts.email = none → (mkAccountPayload opts).contact = none)
      ∧ (∀ em, opts.email = some em → em ≠ "" →
          (mkAccountPayload opts).contact = some ["mailto:" ++ em])) := by
  refine ⟨?_, ?_, ?_, ?_⟩
  · intro env opts u h
    constructor
    · rw [autoBatch_accountCalls env opts, accountStep_of_ok h]
      rfl
    · rw [autoInline_accountCalls env opts, accountStep_of_ok h]
      rfl
  · intro env opts e0 h
    constructor
    · rw [autoBatch_accountCalls env opts, accountStep_trace_of_error _ h]
      rfl
    · rw [autoInline_accountCalls env opts, accountStep_trace_of_error _ h]
      rfl
  · intro env opts e0 e1 h0 h1
    have hacc := accountStep_of_both_errors h0 h1
    have hacc2 : (accountStep env (mkAccountPayload opts)).2 = .error e1 := by rw [hacc]
    have hop := orderPhase_of_account_error hacc2
    have hop2 : (orderPhase env opts).2 = .error e1 := by rw [hop]
    have hopt : (orderPhase env opts).1 = [Event.createAccount (mkAccountPayload opts)] := by
      rw [hop, hacc]
    have hep2 : (earlyPhases env opts).2 = .error e1 := by
      rw [earlyPhases_of_order_error hop2]
    constructor
    · rw [autoBatch_of_early_error hep2, earlyPhases_trace, hopt]
    · rw [autoInline_of_order_error hop2, hopt]
  · intro opts
    refine ⟨rfl, ?_, ?_⟩
    · intro h
      simp [mkAccountPayload, h]
    · intro em h hne
      simp [mkAccountPayload, h, hne]

/-- C7 witness: with an existing account URL no `createAccount` call occurs;
with a throwing `getAccountUrl` exactly one `createAccount` call with the
terms flag and `mailto:` contact occurs; and a failing registration aborts
the concrete attempt with that error. -/
theorem C7_account_registration_witness :
    accountCalls (autoBatch envOk optsBase).1 = []
    ∧ accountCalls
        (autoBatch { envOk with getAccountUrl := .error ⟨"NotRegistered"⟩ } optsBase).1
      = [.createAccount ⟨true, some ["mailto:me@x.com"]⟩]
    ∧ autoBatch
        { envOk with
          getAccountUrl := .error ⟨"NotRegistered"⟩
          createAccount := fun _ => .error ⟨"reg fail"⟩ } optsBase
      = ([.createAccount ⟨true, some ["mailto:me@x.com"]⟩], .error ⟨"reg fail"⟩) := by
  refine ⟨?_, ?_, ?_⟩
  · exact (C7_account_registration.1 envOk optsBase "https://acct" rfl).1
  · exact (C7_account_registration.2.1
      { envOk with getAccountUrl := .error ⟨"NotRegistered"⟩ } optsBase
      ⟨"NotRegistered"⟩ rfl).1
  · exact (C7_account_registration.2.2.1
      { envOk with
        getAccountUrl := .error ⟨"NotRegistered"⟩
        createAccount := fun _ => .error ⟨"reg fail"⟩ } optsBase
      ⟨"NotRegistered"⟩ ⟨"reg fail"⟩ rfl rfl).1

/-- C8: In the batch orchestrator, the i-th provisioning task's
`challengeCreateFn` invocation is immediately preceded in that task by a
sleep of `i * 2000` milliseconds, and the i-th cleanup invocation of
`challengeRemoveFn` (indexed over the successfully-provisioned records) is
likewise immediately preceded by a sleep of `i * 2000` milliseconds. -/
theorem C8_staggered_delays (env : Env) (opts : AutoOpts) (order : String)
    (infos : List ChallInfo)
    (hearly : (earlyPhases env opts).2 = .ok (order, infos)) :
    (∀ (i : Nat) (h : i < infos.length),
      ∃ pre post, (autoBatch env opts).1
        = pre ++ [Event.sleep (i * 2000), createEvOf opts (infos.get ⟨i, h⟩)] ++ post)
    ∧ (∀ (i : Nat) (h : i < (okInfos (provisionResults opts infos)).length),
      ∃ pre post, (autoBatch env opts).1
        = pre ++ [Event.sleep (i * 2000),
            removeEvOf ((okInfos (provisionResults opts infos)).get ⟨i, h⟩)] ++ post) := by
  obtain ⟨tail, ht, hcases⟩ := autoBatch_trace_decomp hearly
  constructor
  · intro i h
    obtain ⟨pre, post, hp⟩ := provisionTasks_stagger opts infos 0 i h
    refine ⟨(orderPhase env opts).1 ++ pre,
      post ++ ((tryPhase env opts (provisionResults opts infos)).1
        ++ (cleanupTasks opts 0 (okInfos (provisionResults opts infos)) ++ tail)), ?_⟩
    rw [ht, hp]
    simp [List.append_assoc]
  · intro i h
    obtain ⟨pre, post, hp⟩ :=
      cleanupTasks_stagger opts (okInfos (provisionResults opts infos)) 0 i h
    refine ⟨(orderPhase env opts).1 ++ (joinTraces (provisionTasks opts 0 infos)
        ++ ((tryPhase env opts (provisionResults opts infos)).1 ++ pre)),
      post ++ tail, ?_⟩
    rw [ht, hp]
    simp [List.append_assoc]

/-- C8 witness: on the concrete two-domain attempt, the second domain's
creation hook call is immediately preceded by a 2000 ms sleep, and the second
cleanup call by a 2000 ms sleep. -/
theorem C8_staggered_delays_witness :
    (∃ pre post, (autoBatch envOk optsBase).1
      = pre ++ [Event.sleep 2000,
          Event.challengeCreate "b.com" ⟨⟨"dns", "b.com"⟩, [httpChall]⟩ httpChall
            "ka.tokH" (.ok (some "rec"))] ++ post)
    ∧ (∃ pre post, (autoBatch envOk optsBase).1
      = pre ++ [Event.sleep 2000,
          Event.challengeRemove "b.com" ⟨⟨"dns", "b.com"⟩, [httpChall]⟩ httpChall
            "ka.tokH" (some "rec")] ++ post) := by
  have h := C8_staggered_delays envOk optsBase "order1"
    [{ authz := ⟨⟨"dns", "a.com"⟩, [httpChall, dnsChall]⟩, keyAuthorization := "ka.tokH",
       domain := "a.com", challenge := httpChall, record := none },
     { authz := ⟨⟨"dns", "b.com"⟩, [httpChall]⟩, keyAuthorization := "ka.tokH",
       domain := "b.com", challenge := httpChall, record := none }] rfl
  exact ⟨h.1 1 (by decide), h.2 1 (by decide)⟩

theorem orderPhase_trace_of_csr_ok {env : Env} {opts : AutoOpts} {cds : CsrDomains}
    (hacc : (accountStep env (mkAccountPayload opts)).2 = .ok ())
    (hcsr : env.readCsrDomains opts.csr = .ok cds) :
    (orderPhase env opts).1
      = (accountStep env (mkAccountPayload opts)).1
        ++ [Event.createOrder ((cds.commonName :: cds.altNames).map
            (fun d => { type := "dns", value := d }))] := by
  simp only [orderPhase, hacc, hcsr]
  split
  · rfl
  · split
    · rfl
    · rfl

/-- C9: Whenever the account phase succeeded and the CSR parse yielded a
common name and alternative names, the one `createOrder` call of the attempt
carries exactly the common name followed by the alternative names in their
original order, each wrapped as a DNS-type identifier — in both
orchestrators, whatever happens afterwards. -/
theorem C9_order_identifiers (env : Env) (opts : AutoOpts) (cds : CsrDomains)
    (hacc : (accountStep env (mkAccountPayload opts)).2 = .ok ())
    (hcsr : env.readCsrDomains opts.csr = .ok cds) :
    orderCalls (autoBatch env opts).1
      = [Event.createOrder ((cds.commonName :: cds.altNames).map
          (fun d => { type := "dns", value := d }))]
    ∧ orderCalls (autoInline env opts).1
      = [Event.createOrder ((cds.commonName :: cds.altNames).map
          (fun d => { type := "dns", value := d }))] := by
  have hot : orderCalls (orderPhase env opts).1
      = [Event.createOrder ((cds.commonName :: cds.altNames).map
          (fun d => { type := "dns", value := d }))] := by
    rw [orderPhase_trace_of_csr_ok hacc hcsr]
    rcases accountStep_trace_shape env (mkAccountPayload opts) with h2 | h2 <;>
      rw [h2] <;> rfl
  exact ⟨by rw [autoBatch_orderCalls, hot], by rw [autoInline_orderCalls, hot]⟩

/-- C9 witness: a CSR with common name `a.com` and alternative names
`b.com`, `c.com` produces exactly one order creation for the DNS identifiers
`a.com`, `b.com`, `c.com` in that order. -/
theorem C9_order_identifiers_witness :
    orderCalls (autoBatch
        { envOk with readCsrDomains := fun _ => .ok ⟨"a.com", ["b.com", "c.com"]⟩ }
        optsBase).1
      = [Event.createOrder [⟨"dns", "a.com"⟩, ⟨"dns", "b.com"⟩, ⟨"dns", "c.com"⟩]] := by
  exact (C9_order_identifiers
    { envOk with readCsrDomains := fun _ => .ok ⟨"a.com", ["b.com", "c.com"]⟩ }
    optsBase ⟨"a.com", ["b.com", "c.com"]⟩ rfl rfl).1

theorem provisionTasks_swap (opts : AutoOpts)
    (r1 r2 : Authz → Challenge → String → Option String → Except JsError Unit)
    (infos : List ChallInfo) : ∀ i : Nat,
    provisionTasks { opts with challengeRemoveFn := r1 } i infos
      = provisionTasks { opts with challengeRemoveFn := r2 } i infos := by
  induction infos with
  | nil => intro i; rfl
  | cons info rest ih =>
    intro i
    simp only [provisionTasks]
    rw [ih (i + 1)]
    rfl

theorem inlineTryFinally_removeCalls (env : Env) (opts : AutoOpts) (sa : Authz)
    (ch : Challenge) (ka : String) (d : String) :
    removeCalls (inlineTryFinally env opts sa ch ka d).1
      = [Event.challengeRemove d sa ch ka (recordOf (opts.challengeCreateFn sa ch ka))] := by
  simp only [inlineTryFinally]
  cases hc : opts.challengeCreateFn sa ch ka with
  | error e =>
    obtain ⟨r1, r2, r3, r4, r5, r6, r7⟩ :=
      removeLogTail_calls (opts.challengeRemoveFn sa ch ka none) d
    simp only [removeCalls, recordOf, List.filter_append] at r1 ⊢
    simp [isRemoveEv, r1]
  | ok r =>
    obtain ⟨v1, v2, v3, v4, v5, v6⟩ := verifyTask_calls env opts ⟨sa, ka, d, ch, r⟩
    obtain ⟨r1, r2, r3, r4, r5, r6, r7⟩ :=
      removeLogTail_calls (opts.challengeRemoveFn sa ch ka r) d
    simp only [removeCalls, recordOf, List.filter_append] at v1 r1 ⊢
    simp [isRemoveEv, v1, r1]

theorem inlineTryFinally_result_swap (env : Env) (opts : AutoOpts)
    (r1 r2 : Authz → Challenge → String → Option String → Except JsError Unit)
    (sa : Authz) (ch : Challenge) (ka : String) (d : String) :
    (inlineTryFinally env { opts with challengeRemoveFn := r1 } sa ch ka d).2
      = (inlineTryFinally env { opts with challengeRemoveFn := r2 } sa ch ka d).2 := by
  simp only [inlineTryFinally]
  cases hc : opts.challengeCreateFn sa ch ka with
  | error e => rfl
  | ok r => rfl

theorem inlineTask_result_swap (env : Env) (opts : AutoOpts)
    (r1 r2 : Authz → Challenge → String → Option String → Except JsError Unit)
    (authz : Authz) :
    (inlineTask env { opts with challengeRemoveFn := r1 } authz).2
      = (inlineTask env { opts with challengeRemoveFn := r2 } authz).2 := by
  simp only [inlineTask]
  split
  · rfl
  · split
    · rfl
    · exact inlineTryFinally_result_swap env opts r1 r2 _ _ _ _

theorem inlineTask_removeCalls_swap (env : Env) (opts : AutoOpts)
    (r1 r2 : Authz → Challenge → String → Option String → Except JsError Unit)
    (authz : Authz) :
    removeCalls (inlineTask env { opts with challengeRemoveFn := r1 } authz).1
      = removeCalls (inlineTask env { opts with challengeRemoveFn := r2 } authz).1 := by
  simp only [inlineTask]
  split
  · rfl
  · split
    · rfl
    · rw [inlineTryFinally_removeCalls, inlineTryFinally_removeCalls]

theorem inlineTasks_results_swap (env : Env) (opts : AutoOpts)
    (r1 r2 : Authz → Challenge → String → Option String → Except JsError Unit)
    (authzs : List Authz) :
    taskResults (authzs.map (inlineTask env { opts with challengeRemoveFn := r1 }))
      = taskResults (authzs.map (inlineTask env { opts with challengeRemoveFn := r2 })) := by
  induction authzs with
  | nil => rfl
  | cons a rest ih =>
    simp only [List.map_cons, taskResults_cons]
    rw [inlineTask_result_swap env opts r1 r2 a, ih]

theorem inlineTasks_removeCalls_swap (env : Env) (opts : AutoOpts)
    (r1 r2 : Authz → Challenge → String → Option String → Except JsError Unit)
    (authzs : List Authz) :
    removeCalls (joinTraces (authzs.map (inlineTask env { opts with challengeRemoveFn := r1 })))
      = removeCalls (joinTraces (authzs.map (inlineTask env { opts with challengeRemoveFn := r2 }))) := by
  induction authzs with
  | nil => rfl
  | cons a rest ih =>
    simp only [List.map_cons, joinTraces_cons, removeCalls_append]
    rw [inlineTask_removeCalls_swap env opts r1 r2 a, ih]

/-- C4: An error raised by the `challengeRemoveFn` hook during cleanup is
suppressed: neither orchestrator's returned result depends in any way on the
removal hook — so a cleanup failure is never the attempt's error and never
masks a primary issuance error — and the sequence of `challengeRemoveFn`
invocations (domains and arguments) is itself independent of the removal
hook's outcomes, so one domain's cleanup failure never prevents the cleanup
of the other domains' records. -/
theorem C4_cleanup_errors_suppressed :
    ∀ (env : Env) (opts : AutoOpts)
      (r1 r2 : Authz → Challenge → String → Option String → Except JsError Unit),
      ((autoBatch env { opts with challengeRemoveFn := r1 }).2
          = (autoBatch env { opts with challengeRemoveFn := r2 }).2
        ∧ removeCalls (autoBatch env { opts with challengeRemoveFn := r1 }).1
          = removeCalls (autoBatch env { opts with challengeRemoveFn := r2 }).1)
      ∧ ((autoInline env { opts with challengeRemoveFn := r1 }).2
          = (autoInline env { opts with challengeRemoveFn := r2 }).2
        ∧ removeCalls (autoInline env { opts with challengeRemoveFn := r1 }).1
          = removeCalls (autoInline env { opts with challengeRemoveFn := r2 }).1) := by
  intro env opts r1 r2
  have hearly : earlyPhases env { opts with challengeRemoveFn := r1 }
      = earlyPhases env { opts with challengeRemoveFn := r2 } := rfl
  have horder : orderPhase env { opts with challengeRemoveFn := r1 }
      = orderPhase env { opts with challengeRemoveFn := r2 } := rfl
  constructor
  · cases he2 : (earlyPhases env { opts with challengeRemoveFn := r2 }).2 with
    | error e =>
      have he1 : (earlyPhases env { opts with challengeRemoveFn := r1 }).2 = .error e := by
        rw [hearly]; exact he2
      rw [autoBatch_of_early_error he1, autoBatch_of_early_error he2, hearly]
      exact ⟨rfl, rfl⟩
    | ok pr =>
      obtain ⟨order, infos⟩ := pr
      have he1 : (earlyPhases env { opts with challengeRemoveFn := r1 }).2
          = .ok (order, infos) := by
        rw [hearly]; exact he2
      have hpr : provisionResults { opts with challengeRemoveFn := r1 } infos
          = provisionResults { opts with challengeRemoveFn := r2 } infos := by
        simp only [provisionResults]
        rw [provisionTasks_swap]
      constructor
      · rw [autoBatch_result_of_ok he1, autoBatch_result_of_ok he2,
          mainPhase_result, mainPhase_result, hpr]
        rfl
      · obtain ⟨tl1, ht1, hc1⟩ := autoBatch_trace_decomp he1
        obtain ⟨tl2, ht2, hc2⟩ := autoBatch_trace_decomp he2
        obtain ⟨a1, _, _, _, _, _⟩ :=
          orderPhase_calls env { opts with challengeRemoveFn := r1 }
        obtain ⟨b1, _, _, _, _, _⟩ :=
          orderPhase_calls env { opts with challengeRemoveFn := r2 }
        obtain ⟨_, pa2, _, _, _, _⟩ :=
          provTrace_calls { opts with challengeRemoveFn := r1 } infos 0
        obtain ⟨_, pb2, _, _, _, _⟩ :=
          provTrace_calls { opts with challengeRemoveFn := r2 } infos 0
        obtain ⟨ta1, _, _, _, _⟩ := tryPhase_calls env { opts with challengeRemoveFn := r1 }
          (provisionResults { opts with challengeRemoveFn := r1 } infos)
        obtain ⟨tb1, _, _, _, _⟩ := tryPhase_calls env { opts with challengeRemoveFn := r2 }
          (provisionResults { opts with challengeRemoveFn := r2 } infos)
        obtain ⟨ca1, _, _, _, _, _⟩ :=
          cleanupTasks_calls { opts with challengeRemoveFn := r1 }
            (okInfos (provisionResults { opts with challengeRemoveFn := r1 } infos)) 0
        obtain ⟨cb1, _, _, _, _, _⟩ :=
          cleanupTasks_calls { opts with challengeRemoveFn := r2 }
            (okInfos (provisionResults { opts with challengeRemoveFn := r2 } infos)) 0
        obtain ⟨la1, _, _, _, _, _, _⟩ := tail_calls hc1
        obtain ⟨lb1, _, _, _, _, _, _⟩ := tail_calls hc2
        rw [ht1, ht2]
        simp only [removeCalls_append, provisionResults] at *
        rw [a1, b1, pa2, pb2, ta1, tb1, ca1, cb1, la1, lb1, provisionTasks_swap opts r1 r2 infos 0]
        try simp
  · cases ho2 : (orderPhase env { opts with challengeRemoveFn := r2 }).2 with
    | error e =>
      have ho1 : (orderPhase env { opts with challengeRemoveFn := r1 }).2 = .error e := by
        rw [horder]; exact ho2
      rw [autoInline_of_order_error ho1, autoInline_of_order_error ho2, horder]
      exact ⟨rfl, rfl⟩
    | ok pr =>
      obtain ⟨order, authzs⟩ := pr
      have ho1 : (orderPhase env { opts with challengeRemoveFn := r1 }).2
          = .ok (order, authzs) := by
        rw [horder]; exact ho2
      have hres := inlineTasks_results_swap env opts r1 r2 authzs
      constructor
      · rw [autoInline_of_order_ok ho1, autoInline_of_order_ok ho2]
        show (autoInlineMain env { opts with challengeRemoveFn := r1 } order authzs).2
          = (autoInlineMain env { opts with challengeRemoveFn := r2 } order authzs).2
        rw [autoInlineMain_result, autoInlineMain_result, hres]
      · rw [autoInline_of_order_ok ho1, autoInline_of_order_ok ho2]
        show removeCalls ((orderPhase env { opts with challengeRemoveFn := r1 }).1
            ++ (autoInlineMain env { opts with challengeRemoveFn := r1 } order authzs).1)
          = removeCalls ((orderPhase env { opts with challengeRemoveFn := r2 }).1
            ++ (autoInlineMain env { opts with challengeRemoveFn := r2 } order authzs).1)
        obtain ⟨tlA, htA, hcA⟩ :=
          autoInlineMain_trace_shape env { opts with challengeRemoveFn := r1 } order authzs
        obtain ⟨tlB, htB, hcB⟩ :=
          autoInlineMain_trace_shape env { opts with challengeRemoveFn := r2 } order authzs
        obtain ⟨a1, _, _, _, _, _⟩ :=
          orderPhase_calls env { opts with challengeRemoveFn := r1 }
        obtain ⟨b1, _, _, _, _, _⟩ :=
          orderPhase_calls env { opts with challengeRemoveFn := r2 }
        obtain ⟨la1, _, _, _, _, _, _⟩ := tail_calls hcA
        obtain ⟨lb1, _, _, _, _, _, _⟩ := tail_calls hcB
        rw [htA, htB]
        simp only [removeCalls_append]
        rw [a1, b1, la1, lb1, inlineTasks_removeCalls_swap env opts r1 r2 authzs]
